import Mathlib

set_option maxHeartbeats 1000000

/-!
Shallow embedding of gbonumore/ts-reporter: two near-identical GitHub-Action
pipelines (src/src/main.ts, the single-schema variant, and the unnamed dual-schema
variant) that fetch monthly merkle-tree reward files, pivot them by user, and
publish the result as a commit.

JavaScript objects are modelled as insertion-ordered association lists
(`List (String × α)`): `Object.entries` iterates in insertion order, and
`obj[k] = v` updates in place when `k` is present and appends otherwise.
`JSON.parse` and the octokit API are external; they are modelled as parameters
(a parse function, a `GitOracle` of per-call results).  Thrown JS values are
`Thrown`: either an `instanceof Error` object carrying a message, or any other
value.
-/

namespace TsReporter

/-- Lookup in a JS-object model: first binding of the key wins. -/
def alookup {α : Type} : List (String × α) → String → Option α
  | [], _ => none
  | (k, v) :: rest, key => if k = key then some v else alookup rest key

/-- JS property assignment `obj[key] = val`: replace in place when present,
append otherwise. -/
def insertJS {α : Type} : List (String × α) → String → α → List (String × α)
  | [], key, val => [(key, val)]
  | (k, v) :: rest, key, val =>
      if k = key then (key, val) :: rest else (k, v) :: insertJS rest key val

/-- The key list of a JS-object model, in insertion order. -/
def keys {α : Type} (m : List (String × α)) : List String := m.map Prod.fst

/-- Well-formedness of a JS-object model: a real JS object has no duplicate keys. -/
def keysNodup {α : Type} (m : List (String × α)) : Prop := (keys m).Nodup

instance {α : Type} (m : List (String × α)) : Decidable (keysNodup m) := by
  unfold keysNodup; infer_instance

/-- A thrown JS value: either an `instanceof Error` with its message, or any
other value (strings, numbers, ...). -/
inductive Thrown where
  | errorObj (message : String)
  | other (value : String)
deriving DecidableEq

/-! ## The GraphQL query result shape (identical in both variants)

`QueryResult.repository.object.entries` is the list of top-level entries under
`HEAD:reports`; each carries `object.entries`, which is absent (`none`) when the
top-level entry is not itself a Tree (the `... on Tree` fragment then matches
nothing). -/

structure BlobObject where
  text : String
deriving DecidableEq

structure FileEntry where
  name : String
  object : BlobObject
deriving DecidableEq

structure SubtreeObject where
  entries : Option (List FileEntry)
deriving DecidableEq

structure TreeEntry where
  name : String
  type : String
  object : SubtreeObject
deriving DecidableEq

structure RepoObject where
  entries : List TreeEntry
deriving DecidableEq

structure Repository where
  object : RepoObject
deriving DecidableEq

structure QueryResult where
  repository : Repository
deriving DecidableEq

/-! ## The publish machinery (identical in both variants) -/

/-- One octokit REST call attempted by the publish sequence, with its arguments. -/
inductive ApiCall where
  | getRef
  | createBlob (content : String)
  | createTree (path blobSha baseTree : String)
  | createCommit (message tree : String) (parents : List String)
  | updateRef (sha : String)
deriving DecidableEq

/-- The outcome each octokit call would have, supplied by the environment. -/
structure GitOracle where
  getRefResult : Except Thrown String
  createBlobResult : String → Except Thrown String
  createTreeResult : String → String → String → Except Thrown String
  createCommitResult : String → String → List String → Except Thrown String
  updateRefResult : String → Except Thrown Unit

/-- The fixed file path used in the created tree (both variants). -/
def treePath : String := "reports/merkle-trees-by-user.json"

/-- The fixed commit message literal (both variants). -/
def commitMessage : String := "**GENERATED** Arrange Rewards by User"

/-- The five-step publish sequence of `run` (lines 138–199 / 185–246): get-ref,
create-blob, create-tree, create-commit, update-ref, each awaited in order, any
failure propagating.  Returns the list of calls attempted and the outcome. -/
def publish (o : GitOracle) (content : String) : List ApiCall × Except Thrown Unit :=
  match o.getRefResult with
  | Except.error t => ([ApiCall.getRef], Except.error t)
  | Except.ok tip =>
    match o.createBlobResult content with
    | Except.error t => ([ApiCall.getRef, ApiCall.createBlob content], Except.error t)
    | Except.ok blobSha =>
      match o.createTreeResult treePath blobSha tip with
      | Except.error t =>
          ([ApiCall.getRef, ApiCall.createBlob content,
            ApiCall.createTree treePath blobSha tip], Except.error t)
      | Except.ok treeSha =>
        match o.createCommitResult commitMessage treeSha [tip] with
        | Except.error t =>
            ([ApiCall.getRef, ApiCall.createBlob content,
              ApiCall.createTree treePath blobSha tip,
              ApiCall.createCommit commitMessage treeSha [tip]], Except.error t)
        | Except.ok commitSha =>
          match o.updateRefResult commitSha with
          | Except.error t =>
              ([ApiCall.getRef, ApiCall.createBlob content,
                ApiCall.createTree treePath blobSha tip,
                ApiCall.createCommit commitMessage treeSha [tip],
                ApiCall.updateRef commitSha], Except.error t)
          | Except.ok _ =>
              ([ApiCall.getRef, ApiCall.createBlob content,
                ApiCall.createTree treePath blobSha tip,
                ApiCall.createCommit commitMessage treeSha [tip],
                ApiCall.updateRef commitSha], Except.ok ())

/-- The branch pointer after a run: only an update-ref call that the API
accepts moves it; every other call leaves it alone. -/
def branchAfter (o : GitOracle) (init : String) (calls : List ApiCall) : String :=
  calls.foldl
    (fun b c =>
      match c with
      | ApiCall.updateRef sha =>
          match o.updateRefResult sha with
          | Except.ok _ => sha
          | Except.error _ => b
      | _ => b)
    init

/-- An effect on the Actions host (`@actions/core`). -/
inductive CoreAction where
  | setFailed (message : String)
deriving DecidableEq

/-- The single top-level `catch` block (lines 200–202 / 247–249):
`if (error instanceof Error) core.setFailed(error.message)` — a non-Error
thrown value triggers no call at all. -/
def catchBlock : Thrown → List CoreAction
  | Thrown.errorObj m => [CoreAction.setFailed m]
  | Thrown.other _ => []

/-- What `run` reports on the host: nothing on success, the catch block's
actions on a thrown value. -/
def runReport (result : Except Thrown Unit) : List CoreAction :=
  match result with
  | Except.ok _ => []
  | Except.error t => catchBlock t

/-! ## JSON serialization (`JSON.stringify(value, null, 2)`)

`JSON.stringify` is a platform builtin; it is embedded here for the record
shapes the two pipelines serialize.  A parsed record is modelled with the
field order the TypeScript type declares. -/

def jsonEscapeChar (c : Char) : String :=
  if c = Char.ofNat 34 then "\\\""
  else if c = '\\' then "\\\\"
  else if c = '\n' then "\\n"
  else if c = '\r' then "\\r"
  else if c = '\t' then "\\t"
  else String.singleton c

def jsonEscape (s : String) : String := String.join (s.toList.map jsonEscapeChar)

/-- A JSON string literal. -/
def jstr (s : String) : String := "\"" ++ jsonEscape s ++ "\""

def indentStr (n : Nat) : String := String.mk (List.replicate n ' ')

/-- `JSON.stringify` of an array whose elements are already rendered, at
surrounding indent `ind` (two-space steps). -/
def jsonArray (items : List String) (ind : Nat) : String :=
  if items.isEmpty then "[]"
  else "[\n" ++ String.intercalate ",\n" (items.map (fun s => indentStr (ind + 2) ++ s))
       ++ "\n" ++ indentStr ind ++ "]"

/-- `JSON.stringify` of an object whose field values are already rendered, at
surrounding indent `ind`.  The empty object renders as `\x7b\x7d`. -/
def jsonObject (fields : List (String × String)) (ind : Nat) : String :=
  if fields.isEmpty then "\x7b\x7d"
  else "\x7b\n"
       ++ String.intercalate ",\n"
            (fields.map (fun p => indentStr (ind + 2) ++ jstr p.1 ++ ": " ++ p.2))
       ++ "\n" ++ indentStr ind ++ "\x7d"

/-! ## Single-schema variant (src/src/main.ts) -/

namespace Single

structure Metadata where
  reason : String
deriving DecidableEq

/-- The value type of one user's entry in `Claim` (src/src/main.ts lines 4–14). -/
structure ClaimEntry where
  accountIndex : Int
  amount : String
  metadata : Metadata
  windowIndex : Int
  proof : List String
deriving DecidableEq

/-- `type Claim = { [user: string]: {...} }`: the per-file map from user to entry. -/
abbrev Claim := List (String × ClaimEntry)

/-- src/src/main.ts lines 16–23. -/
structure MerkleTree where
  id : Int
  rewardToken : String
  windowIndex : Int
  totalRewardsDistributed : String
  merkleRoot : String
  claims : Claim
deriving DecidableEq

abbrev MerkleTreesByMonth := List (String × MerkleTree)

abbrev MerkleTreesByUser := List (String × List (String × ClaimEntry))

/-- The body of the inner `.map` of src/src/main.ts lines 105–111: a file named
`merkle-tree.json` is parsed (`JSON.parse` may throw) and assigned at
`merkleTreesByMonth[entry.name]`; any other file is skipped. -/
def processFile (parse : String → Except Thrown MerkleTree) (month : String)
    (a : MerkleTreesByMonth) (el : FileEntry) : Except Thrown MerkleTreesByMonth :=
  if el.name = "merkle-tree.json" then
    match parse el.object.text with
    | Except.error t => Except.error t
    | Except.ok mt => Except.ok (insertJS a month mt)
  else Except.ok a

/-- The inner `.map` loop over one month directory's files, with exception
propagation. -/
def processFiles (parse : String → Except Thrown MerkleTree) (month : String) :
    MerkleTreesByMonth → List FileEntry → Except Thrown MerkleTreesByMonth
  | acc, [] => Except.ok acc
  | acc, el :: rest =>
      match processFile parse month acc el with
      | Except.error t => Except.error t
      | Except.ok a2 => processFiles parse month a2 rest

/-- One top-level entry's contribution to `merkleTreesByMonth`
(src/src/main.ts lines 103–113): dereferencing `entry.object.entries` throws
when absent. -/
def buildMonth (parse : String → Except Thrown MerkleTree) (acc : MerkleTreesByMonth)
    (entry : TreeEntry) : Except Thrown MerkleTreesByMonth :=
  match entry.object.entries with
  | none => Except.error (Thrown.errorObj "Cannot read properties of undefined (reading 'map')")
  | some els => processFiles parse entry.name acc els

/-- The outer `.map` loop over top-level entries, with exception propagation. -/
def buildMonths (parse : String → Except Thrown MerkleTree) :
    MerkleTreesByMonth → List TreeEntry → Except Thrown MerkleTreesByMonth
  | acc, [] => Except.ok acc
  | acc, entry :: rest =>
      match buildMonth parse acc entry with
      | Except.error t => Except.error t
      | Except.ok a2 => buildMonths parse a2 rest

/-- `merkleTreesByMonth` of src/src/main.ts lines 102–113. -/
def merkleTreesByMonth (parse : String → Except Thrown MerkleTree)
    (entries : List TreeEntry) : Except Thrown MerkleTreesByMonth :=
  buildMonths parse [] entries

/-- `el.name === 'merkle-tree.json'`: the single recognized file name. -/
def recognizedS (el : FileEntry) : Bool := el.name = "merkle-tree.json"

/-- The input with every unrecognized file removed from a month directory
(a statement device for the claim that such files are excluded). -/
def dropUnrecognizedS (e : TreeEntry) : TreeEntry :=
  { e with object := { entries := e.object.entries.map (fun els => els.filter recognizedS) } }

/-- The loop body of src/src/main.ts lines 127–130:
`if (!byUser[user]) byUser[user] = {}; byUser[user][date] = claim`. -/
def writeClaim (acc : MerkleTreesByUser) (user date : String) (claim : ClaimEntry) :
    MerkleTreesByUser :=
  insertJS acc user (insertJS ((alookup acc user).getD []) date claim)

/-- The inner `for (const [user, claim] of Object.entries(merkleTree.claims))`. -/
def reshapeMonth (acc : MerkleTreesByUser) (date : String) (cs : Claim) : MerkleTreesByUser :=
  cs.foldl (fun a p => writeClaim a p.1 date p.2) acc

/-- The reshape loop of src/src/main.ts lines 125–132, starting from an
arbitrary accumulated user index. -/
def pivot (acc : MerkleTreesByUser) (monthly : MerkleTreesByMonth) : MerkleTreesByUser :=
  monthly.foldl (fun a p => reshapeMonth a p.1 p.2.claims) acc

/-- `merkleTreesByUser` of src/src/main.ts lines 124–132: the month → user pivot,
starting from the empty object. -/
def merkleTreesByUser (monthly : MerkleTreesByMonth) : MerkleTreesByUser :=
  pivot [] monthly

/-- `JSON.stringify` of one claim entry at surrounding indent `ind`. -/
def stringifyClaimEntry (c : ClaimEntry) (ind : Nat) : String :=
  jsonObject
    [("accountIndex", toString c.accountIndex),
     ("amount", jstr c.amount),
     ("metadata", jsonObject [("reason", jstr c.metadata.reason)] (ind + 2)),
     ("windowIndex", toString c.windowIndex),
     ("proof", jsonArray (c.proof.map jstr) (ind + 2))]
    ind

/-- `JSON.stringify(merkleTreesByUser, null, 2)` (src/src/main.ts line 151). -/
def stringifyUserIndex (ui : MerkleTreesByUser) : String :=
  jsonObject
    (ui.map (fun p =>
      (p.1, jsonObject (p.2.map (fun q => (q.1, stringifyClaimEntry q.2 4))) 2)))
    0

/-- The body of the `try` block of `run` (src/src/main.ts lines 54–199) after
input acquisition: build the month index, pivot it, then publish.  Returns the
octokit calls attempted and the outcome the catch block sees. -/
def runTry (parse : String → Except Thrown MerkleTree) (q : QueryResult) (o : GitOracle) :
    List ApiCall × Except Thrown Unit :=
  match merkleTreesByMonth parse q.repository.object.entries with
  | Except.error t => ([], Except.error t)
  | Except.ok monthly => publish o (stringifyUserIndex (merkleTreesByUser monthly))

end Single

/-! ## Dual-schema variant (the unnamed near-duplicate source file) -/

namespace Dual

/-- Lines 4–9 of the dual-schema file. -/
structure Recipient where
  windowIndex : Int
  accountIndex : Int
  rewards : String
  proof : List String
deriving DecidableEq

structure AggregateRewards where
  address : String
  token : String
  decimals : Int
  amount : String
  original_amount : String
  pro_rata : String
  non_active_pro_rata : String
  redistributed_total : String
  redistributed_to_stakers : String
  redistributed_transferred : String
  total_tax : String
deriving DecidableEq

/-- Lines 11–31 of the dual-schema file. -/
structure MerkleTree where
  windowIndex : Int
  chainId : Int
  aggregateRewards : AggregateRewards
  recipients : List (String × Recipient)
  root : String
deriving DecidableEq

/-- month → token → tree, as `MerkleTreesByMonth` is populated dynamically. -/
abbrev MerkleTreesByMonth := List (String × List (String × MerkleTree))

abbrev MerkleTreesByUser := List (String × List (String × List (String × Recipient)))

/-- One file's contribution to `merkleTreesByMonth` (dual-schema file lines
119–130).  The source assigns `merkleTreesByMonth[date]['veAUXO'] = merkleTree`
(resp. `'xAUXO'`) without ever initializing `merkleTreesByMonth[date]`, so the
assignment dereferences `undefined` and throws a TypeError whenever a
recognized file is reached. -/
def processFile (parse : String → Except Thrown MerkleTree) (date : String)
    (acc : MerkleTreesByMonth) (el : FileEntry) : Except Thrown MerkleTreesByMonth :=
  if el.name = "merkle-tree-veAUXO.json" then
    match parse el.object.text with
    | Except.error t => Except.error t
    | Except.ok mt =>
      match alookup acc date with
      | none => Except.error (Thrown.errorObj "Cannot set properties of undefined (setting 'veAUXO')")
      | some byTok => Except.ok (insertJS acc date (insertJS byTok "veAUXO" mt))
  else if el.name = "merkle-tree-xAUXO.json" then
    match parse el.object.text with
    | Except.error t => Except.error t
    | Except.ok mt =>
      match alookup acc date with
      | none => Except.error (Thrown.errorObj "Cannot set properties of undefined (setting 'xAUXO')")
      | some byTok => Except.ok (insertJS acc date (insertJS byTok "xAUXO" mt))
  else Except.ok acc

/-- The inner `.map` loop over one month directory's files, with exception
propagation. -/
def processFiles (parse : String → Except Thrown MerkleTree) (month : String) :
    MerkleTreesByMonth → List FileEntry → Except Thrown MerkleTreesByMonth
  | acc, [] => Except.ok acc
  | acc, el :: rest =>
      match processFile parse month acc el with
      | Except.error t => Except.error t
      | Except.ok a2 => processFiles parse month a2 rest

/-- One top-level entry's contribution (dual-schema file lines 117–132). -/
def buildMonth (parse : String → Except Thrown MerkleTree) (acc : MerkleTreesByMonth)
    (entry : TreeEntry) : Except Thrown MerkleTreesByMonth :=
  match entry.object.entries with
  | none => Except.error (Thrown.errorObj "Cannot read properties of undefined (reading 'map')")
  | some els => processFiles parse entry.name acc els

/-- The outer `.map` loop over top-level entries, with exception propagation. -/
def buildMonths (parse : String → Except Thrown MerkleTree) :
    MerkleTreesByMonth → List TreeEntry → Except Thrown MerkleTreesByMonth
  | acc, [] => Except.ok acc
  | acc, entry :: rest =>
      match buildMonth parse acc entry with
      | Except.error t => Except.error t
      | Except.ok a2 => buildMonths parse a2 rest

/-- `merkleTreesByMonth` of the dual-schema file lines 116–132. -/
def merkleTreesByMonth (parse : String → Except Thrown MerkleTree)
    (entries : List TreeEntry) : Except Thrown MerkleTreesByMonth :=
  buildMonths parse [] entries

/-- The loop body of the dual-schema file lines 170–176. -/
def writeRecipient (acc : MerkleTreesByUser) (user token date : String) (r : Recipient) :
    MerkleTreesByUser :=
  let um := (alookup acc user).getD []
  let tm := (alookup um token).getD []
  insertJS acc user (insertJS um token (insertJS tm date r))

/-- The recipient loop over an explicit recipient list (body of `reshapeTree`). -/
def writeAll (acc : MerkleTreesByUser) (token date : String)
    (rs : List (String × Recipient)) : MerkleTreesByUser :=
  rs.foldl (fun a p => writeRecipient a p.1 token date p.2) acc

/-- The inner `for (const [user, recipient] of Object.entries(merkleTree.recipients))`. -/
def reshapeTree (acc : MerkleTreesByUser) (token date : String) (t : MerkleTree) :
    MerkleTreesByUser :=
  writeAll acc token date t.recipients

/-- The middle `for (const [token, merkleTree] of Object.entries(merkleTreesByToken))`. -/
def reshapeMonth (acc : MerkleTreesByUser) (date : String)
    (byTok : List (String × MerkleTree)) : MerkleTreesByUser :=
  byTok.foldl (fun a p => reshapeTree a p.1 date p.2) acc

/-- The reshape loop of the dual-schema file lines 165–179, starting from an
arbitrary accumulated user index. -/
def pivot (acc : MerkleTreesByUser) (monthly : MerkleTreesByMonth) : MerkleTreesByUser :=
  monthly.foldl (fun a p => reshapeMonth a p.1 p.2) acc

/-- `merkleTreesByUser` of the dual-schema file lines 164–179: the
month → token → user pivot, starting from the empty object. -/
def merkleTreesByUser (monthly : MerkleTreesByMonth) : MerkleTreesByUser :=
  pivot [] monthly

/-- `JSON.stringify` of one recipient at surrounding indent `ind`. -/
def stringifyRecipient (r : Recipient) (ind : Nat) : String :=
  jsonObject
    [("windowIndex", toString r.windowIndex),
     ("accountIndex", toString r.accountIndex),
     ("rewards", jstr r.rewards),
     ("proof", jsonArray (r.proof.map jstr) (ind + 2))]
    ind

/-- `JSON.stringify(merkleTreesByUser, null, 2)` (dual-schema file line 198). -/
def stringifyUserIndex (ui : MerkleTreesByUser) : String :=
  jsonObject
    (ui.map (fun p =>
      (p.1,
       jsonObject
         (p.2.map (fun q =>
           (q.1, jsonObject (q.2.map (fun s => (s.1, stringifyRecipient s.2 6))) 4)))
         2)))
    0

/-- The body of the `try` block of the dual-schema `run` (lines 68–246) after
input acquisition. -/
def runTry (parse : String → Except Thrown MerkleTree) (q : QueryResult) (o : GitOracle) :
    List ApiCall × Except Thrown Unit :=
  match merkleTreesByMonth parse q.repository.object.entries with
  | Except.error t => ([], Except.error t)
  | Except.ok monthly => publish o (stringifyUserIndex (merkleTreesByUser monthly))

end Dual

/-! ## Derived observation functions and sample data -/

namespace Single

/-- The claim the output user index holds at `[user][date]`, if any. -/
def claimAt (ui : MerkleTreesByUser) (user date : String) : Option ClaimEntry :=
  (alookup ui user).bind (fun um => alookup um date)

/-- Total number of claims across all months of the input index. -/
def inputClaimCount (monthly : MerkleTreesByMonth) : Nat :=
  (monthly.map (fun p => p.2.claims.length)).sum

/-- Total number of claims across all users of the output index. -/
def outputClaimCount (ui : MerkleTreesByUser) : Nat :=
  (ui.map (fun p => p.2.length)).sum

def sampleClaim : ClaimEntry :=
  { accountIndex := 0, amount := "100", metadata := { reason := "x" },
    windowIndex := 0, proof := ["0x00"] }

def sampleTree : MerkleTree :=
  { id := 1, rewardToken := "0xT", windowIndex := 0, totalRewardsDistributed := "100",
    merkleRoot := "0xroot", claims := [("0xAAA", sampleClaim)] }

def sampleClaim2 : ClaimEntry :=
  { accountIndex := 1, amount := "7", metadata := { reason := "y" },
    windowIndex := 1, proof := ["0x01"] }

def sampleTree2 : MerkleTree :=
  { id := 2, rewardToken := "0xT", windowIndex := 1, totalRewardsDistributed := "7",
    merkleRoot := "0xr2", claims := [("0xAAA", sampleClaim2)] }

end Single

namespace Dual

/-- The recipient the output user index holds at `[user][token][date]`, if any. -/
def recipientAt (ui : MerkleTreesByUser) (user token date : String) : Option Recipient :=
  ((alookup ui user).bind (fun um => alookup um token)).bind (fun tm => alookup tm date)

/-- Number of recipient entries below one user of the output index. -/
def userSize (um : List (String × List (String × Recipient))) : Nat :=
  (um.map (fun q => q.2.length)).sum

/-- Total number of recipient entries across all months and tokens of the
input index. -/
def inputRecipientCount (ms : MerkleTreesByMonth) : Nat :=
  (ms.map (fun p => (p.2.map (fun q => q.2.recipients.length)).sum)).sum

/-- Total number of recipient entries across all users of the output index. -/
def outputRecipientCount (ui : MerkleTreesByUser) : Nat :=
  (ui.map (fun p => userSize p.2)).sum

def sampleAgg : AggregateRewards :=
  { address := "0xA", token := "0xT", decimals := 18, amount := "1", original_amount := "1",
    pro_rata := "0", non_active_pro_rata := "0", redistributed_total := "0",
    redistributed_to_stakers := "0", redistributed_transferred := "0", total_tax := "0" }

def sampleRecipient : Recipient :=
  { windowIndex := 0, accountIndex := 0, rewards := "5", proof := ["0x00"] }

def sampleRecipient2 : Recipient :=
  { windowIndex := 0, accountIndex := 1, rewards := "7", proof := ["0x01"] }

def sampleTree : MerkleTree :=
  { windowIndex := 0, chainId := 1, aggregateRewards := sampleAgg,
    recipients := [("0xBBB", sampleRecipient)], root := "0xr" }

def sampleTree2 : MerkleTree :=
  { windowIndex := 0, chainId := 1, aggregateRewards := sampleAgg,
    recipients := [("0xBBB", sampleRecipient2)], root := "0xs" }

end Dual

/-- An environment in which every octokit call succeeds. -/
def okOracle : GitOracle :=
  { getRefResult := Except.ok "tip0",
    createBlobResult := fun _ => Except.ok "blob0",
    createTreeResult := fun _ _ _ => Except.ok "tree0",
    createCommitResult := fun _ _ _ => Except.ok "commit0",
    updateRefResult := fun _ => Except.ok () }

/-- An environment in which get-ref fails (the branch is absent). -/
def failingGetRefOracle : GitOracle :=
  { okOracle with getRefResult := Except.error (Thrown.errorObj "Reference does not exist") }

/-! ## Association-list lemmas (JS-object semantics) -/

theorem mem_keys_of_mem {α : Type} {m : List (String × α)} {k : String} {v : α}
    (h : (k, v) ∈ m) : k ∈ keys m :=
  List.mem_map.mpr ⟨(k, v), h, rfl⟩

theorem alookup_insertJS_self {α : Type} (m : List (String × α)) (k : String) (v : α) :
    alookup (insertJS m k v) k = some v := by
  induction m with
  | nil => simp [insertJS, alookup]
  | cons p rest ih =>
      obtain ⟨k0, v0⟩ := p
      by_cases h : k0 = k
      · simp [insertJS, h, alookup]
      · simp [insertJS, h, alookup, ih]

theorem alookup_insertJS_ne {α : Type} (m : List (String × α)) (k k' : String) (v : α)
    (h : k' ≠ k) : alookup (insertJS m k v) k' = alookup m k' := by
  induction m with
  | nil => simp [insertJS, alookup, Ne.symm h]
  | cons p rest ih =>
      obtain ⟨k0, v0⟩ := p
      by_cases h0 : k0 = k
      · simp [insertJS, h0, alookup, Ne.symm h]
      · by_cases h1 : k0 = k'
        · subst h1
          simp [insertJS, h0, alookup]
        · simp [insertJS, h0, alookup, h1, ih]

theorem alookup_eq_none_iff {α : Type} (m : List (String × α)) (k : String) :
    alookup m k = none ↔ k ∉ keys m := by
  induction m with
  | nil => simp [alookup, keys]
  | cons p rest ih =>
      obtain ⟨k0, v0⟩ := p
      by_cases h : k0 = k
      · simp [alookup, h, keys]
      · simp [alookup, h, keys, ih, Ne.symm h]

theorem alookup_mem {α : Type} {m : List (String × α)} {k : String} {v : α}
    (h : alookup m k = some v) : (k, v) ∈ m := by
  induction m with
  | nil => simp [alookup] at h
  | cons p rest ih =>
      obtain ⟨k0, v0⟩ := p
      by_cases h0 : k0 = k
      · simp only [alookup, h0, if_true, Option.some.injEq] at h
        subst h0; subst h
        exact List.mem_cons_self _ _
      · simp only [alookup, h0, if_false] at h
        exact List.mem_cons_of_mem _ (ih h)

theorem keys_insertJS {α : Type} (m : List (String × α)) (k : String) (v : α) :
    keys (insertJS m k v) = keys m ∨ keys (insertJS m k v) = keys m ++ [k] := by
  induction m with
  | nil => right; simp [insertJS, keys]
  | cons p rest ih =>
      obtain ⟨k0, v0⟩ := p
      by_cases h : k0 = k
      · left
        simp [insertJS, h, keys]
      · rcases ih with h1 | h1
        · left
          simp [insertJS, h, keys] at h1 ⊢
          exact h1
        · right
          simp [insertJS, h, keys] at h1 ⊢
          exact h1

theorem self_mem_keys_insertJS {α : Type} (m : List (String × α)) (k : String) (v : α) :
    k ∈ keys (insertJS m k v) :=
  mem_keys_of_mem (alookup_mem (alookup_insertJS_self m k v))

theorem mem_keys_insertJS {α : Type} (m : List (String × α)) (k k' : String) (v : α) :
    k' ∈ keys (insertJS m k v) ↔ k' ∈ keys m ∨ k' = k := by
  constructor
  · intro hmem
    rcases keys_insertJS m k v with h | h
    · exact Or.inl (h ▸ hmem)
    · rw [h] at hmem
      simpa using hmem
  · rintro (hmem | rfl)
    · rcases keys_insertJS m k v with h | h
      · exact h ▸ hmem
      · rw [h]; exact List.mem_append_left _ hmem
    · exact self_mem_keys_insertJS m k' v

theorem keysNodup_insertJS {α : Type} (m : List (String × α)) (k : String) (v : α)
    (h : keysNodup m) : keysNodup (insertJS m k v) := by
  induction m with
  | nil => simp [insertJS, keysNodup, keys]
  | cons p rest ih =>
      obtain ⟨k0, v0⟩ := p
      unfold keysNodup keys at h
      simp only [List.map_cons, List.nodup_cons] at h
      by_cases h0 : k0 = k
      · subst h0
        unfold keysNodup keys
        simpa [insertJS] using h
      · have hrest := ih h.2
        unfold keysNodup keys
        simp only [insertJS, h0, if_false, List.map_cons, List.nodup_cons]
        refine ⟨?_, hrest⟩
        intro hmem
        rcases (mem_keys_insertJS rest k k0 v).mp hmem with hin | heq
        · exact h.1 hin
        · exact h0 heq

theorem length_insertJS_none {α : Type} {m : List (String × α)} {k : String} (v : α)
    (h : alookup m k = none) : (insertJS m k v).length = m.length + 1 := by
  induction m with
  | nil => simp [insertJS]
  | cons p rest ih =>
      obtain ⟨k0, v0⟩ := p
      by_cases h0 : k0 = k
      · simp [alookup, h0] at h
      · simp only [alookup, h0, if_false] at h
        simp [insertJS, h0, ih h]

theorem length_insertJS_some {α : Type} {m : List (String × α)} {k : String} {w : α} (v : α)
    (h : alookup m k = some w) : (insertJS m k v).length = m.length := by
  induction m with
  | nil => simp [alookup] at h
  | cons p rest ih =>
      obtain ⟨k0, v0⟩ := p
      by_cases h0 : k0 = k
      · simp [insertJS, h0]
      · simp only [alookup, h0, if_false] at h
        simp [insertJS, h0, ih h]

theorem sizeSum_insertJS {α : Type} (sz : α → Nat) (m : List (String × α)) (k : String)
    (v : α) :
    ((insertJS m k v).map (fun p => sz p.2)).sum + ((alookup m k).map sz).getD 0
      = (m.map (fun p => sz p.2)).sum + sz v := by
  induction m with
  | nil => simp [insertJS, alookup]
  | cons p rest ih =>
      obtain ⟨k0, v0⟩ := p
      by_cases h : k0 = k
      · subst h
        simp [insertJS, alookup]
        omega
      · simp only [insertJS, h, if_false, List.map_cons, List.sum_cons, alookup]
        omega

theorem alookup_of_mem_nodup {α : Type} {m : List (String × α)} {k : String} {v : α}
    (hn : keysNodup m) (h : (k, v) ∈ m) : alookup m k = some v := by
  induction m with
  | nil => simp at h
  | cons p rest ih =>
      obtain ⟨k0, v0⟩ := p
      unfold keysNodup keys at hn
      simp only [List.map_cons, List.nodup_cons] at hn
      rcases List.mem_cons.mp h with heq | hmem
      · obtain ⟨h1, h2⟩ := Prod.mk.injEq .. ▸ congrArg id heq
        · simp [alookup, ← h1, ← h2]
      · by_cases h0 : k0 = k
        · exfalso
          exact hn.1 (h0 ▸ mem_keys_of_mem hmem)
        · simp only [alookup, h0, if_false]
          exact ih hn.2 hmem

theorem keysNodup_perm {α : Type} {m₁ m₂ : List (String × α)} (hp : m₁.Perm m₂)
    (hn : keysNodup m₁) : keysNodup m₂ :=
  ((hp.map Prod.fst).nodup_iff).mp hn

theorem alookup_perm {α : Type} {m₁ m₂ : List (String × α)} (hp : m₁.Perm m₂)
    (hn : keysNodup m₁) (k : String) : alookup m₁ k = alookup m₂ k := by
  cases h1 : alookup m₁ k with
  | none =>
      have hk : k ∉ keys m₁ := (alookup_eq_none_iff m₁ k).mp h1
      have hk2 : k ∉ keys m₂ := fun hc => hk ((hp.map Prod.fst).mem_iff.mpr hc)
      exact ((alookup_eq_none_iff m₂ k).mpr hk2).symm
  | some v =>
      have hmem : (k, v) ∈ m₂ := hp.mem_iff.mp (alookup_mem h1)
      exact (alookup_of_mem_nodup (keysNodup_perm hp hn) hmem).symm

theorem keys_cons {α : Type} (p : String × α) (rest : List (String × α)) :
    keys (p :: rest) = p.1 :: keys rest := rfl

theorem keysNodup_cons {α : Type} (p : String × α) (rest : List (String × α)) :
    keysNodup (p :: rest) ↔ p.1 ∉ keys rest ∧ keysNodup rest := by
  simp [keysNodup, keys_cons]

/-! ## Reshape lemmas: single-schema variant -/

namespace Single

theorem reshapeMonth_nil (acc : MerkleTreesByUser) (d : String) :
    reshapeMonth acc d [] = acc := rfl

theorem reshapeMonth_cons (acc : MerkleTreesByUser) (d : String) (p : String × ClaimEntry)
    (rest : Claim) :
    reshapeMonth acc d (p :: rest) = reshapeMonth (writeClaim acc p.1 d p.2) d rest := rfl

theorem pivot_nil (acc : MerkleTreesByUser) : pivot acc [] = acc := rfl

theorem pivot_cons (acc : MerkleTreesByUser) (p : String × MerkleTree)
    (rest : MerkleTreesByMonth) :
    pivot acc (p :: rest) = pivot (reshapeMonth acc p.1 p.2.claims) rest := rfl

theorem claimAt_writeClaim_self (acc : MerkleTreesByUser) (u d : String) (c : ClaimEntry) :
    claimAt (writeClaim acc u d c) u d = some c := by
  unfold claimAt writeClaim
  rw [alookup_insertJS_self]
  simp [alookup_insertJS_self]

theorem alookup_writeClaim_ne_user (acc : MerkleTreesByUser) (u u' d : String) (c : ClaimEntry)
    (h : u' ≠ u) : alookup (writeClaim acc u d c) u' = alookup acc u' :=
  alookup_insertJS_ne acc u u' _ h

theorem claimAt_writeClaim_ne (acc : MerkleTreesByUser) (u d : String) (c : ClaimEntry)
    (u' d' : String) (h : u' ≠ u ∨ d' ≠ d) :
    claimAt (writeClaim acc u d c) u' d' = claimAt acc u' d' := by
  by_cases hu : u' = u
  · subst hu
    have hd : d' ≠ d := by tauto
    unfold claimAt writeClaim
    rw [alookup_insertJS_self]
    cases hx : alookup acc u' with
    | none => simp [hx, insertJS, alookup, Ne.symm hd]
    | some um =>
        simp only [hx, Option.getD_some, Option.some_bind]
        exact alookup_insertJS_ne um d d' c hd
  · unfold claimAt
    rw [alookup_writeClaim_ne_user acc u u' d c hu]

theorem claimAt_reshapeMonth_ne_date (acc : MerkleTreesByUser) (d : String) (cs : Claim)
    (u d' : String) (h : d' ≠ d) :
    claimAt (reshapeMonth acc d cs) u d' = claimAt acc u d' := by
  induction cs generalizing acc with
  | nil => rfl
  | cons p rest ih =>
      rw [reshapeMonth_cons, ih, claimAt_writeClaim_ne _ _ _ _ _ _ (Or.inr h)]

theorem alookup_reshapeMonth_not_mem (acc : MerkleTreesByUser) (d : String) (cs : Claim)
    (u : String) (h : u ∉ keys cs) :
    alookup (reshapeMonth acc d cs) u = alookup acc u := by
  induction cs generalizing acc with
  | nil => rfl
  | cons p rest ih =>
      rw [keys_cons] at h
      simp only [List.mem_cons, not_or] at h
      rw [reshapeMonth_cons, ih _ h.2, alookup_writeClaim_ne_user _ _ _ _ _ h.1]

theorem claimAt_reshapeMonth_at (acc : MerkleTreesByUser) (d : String) (cs : Claim)
    (u : String) (hn : keysNodup cs) :
    claimAt (reshapeMonth acc d cs) u d = (alookup cs u).or (claimAt acc u d) := by
  induction cs generalizing acc with
  | nil => simp [reshapeMonth_nil, alookup]
  | cons p rest ih =>
      obtain ⟨u0, c0⟩ := p
      rw [keysNodup_cons] at hn
      by_cases hu : u = u0
      · subst hu
        rw [reshapeMonth_cons]
        have h1 : claimAt (reshapeMonth (writeClaim acc u d c0) d rest) u d
            = claimAt (writeClaim acc u d c0) u d := by
          unfold claimAt
          rw [alookup_reshapeMonth_not_mem _ _ _ _ hn.1]
        rw [h1, claimAt_writeClaim_self]
        simp [alookup]
      · rw [reshapeMonth_cons, ih _ hn.2, claimAt_writeClaim_ne _ _ _ _ _ _ (Or.inl hu)]
        simp [alookup, Ne.symm hu]

theorem claimAt_pivot_none (acc : MerkleTreesByUser) (ms : MerkleTreesByMonth) (u d : String)
    (h : alookup ms d = none) :
    claimAt (pivot acc ms) u d = claimAt acc u d := by
  induction ms generalizing acc with
  | nil => rfl
  | cons p rest ih =>
      obtain ⟨d0, t0⟩ := p
      by_cases hd : d0 = d
      · simp [alookup, hd] at h
      · simp only [alookup, hd, if_false] at h
        rw [pivot_cons, ih _ h, claimAt_reshapeMonth_ne_date _ _ _ _ _ (Ne.symm hd)]

theorem claimAt_pivot (acc : MerkleTreesByUser) (ms : MerkleTreesByMonth) (u d : String)
    (hn : keysNodup ms) (hc : ∀ p ∈ ms, keysNodup p.2.claims) :
    claimAt (pivot acc ms) u d
      = ((alookup ms d).bind (fun t => alookup t.claims u)).or (claimAt acc u d) := by
  induction ms generalizing acc with
  | nil => simp [pivot_nil, alookup]
  | cons p rest ih =>
      obtain ⟨d0, t0⟩ := p
      rw [keysNodup_cons] at hn
      by_cases hd : d = d0
      · subst hd
        rw [pivot_cons]
        rw [claimAt_pivot_none _ _ _ _ ((alookup_eq_none_iff rest d).mpr hn.1)]
        rw [claimAt_reshapeMonth_at _ _ _ _ (hc (d, t0) (List.mem_cons_self _ _))]
        simp [alookup]
      · rw [pivot_cons, ih _ hn.2 (fun p hp => hc p (List.mem_cons_of_mem _ hp)),
            claimAt_reshapeMonth_ne_date _ _ _ _ _ hd]
        simp [alookup, Ne.symm hd]

/-- The single-schema pivot, characterized pointwise: the output holds at
`[user][month]` exactly the claim the input holds at `[month].claims[user]`. -/
theorem claimAt_merkleTreesByUser (ms : MerkleTreesByMonth) (u d : String)
    (hn : keysNodup ms) (hc : ∀ p ∈ ms, keysNodup p.2.claims) :
    claimAt (merkleTreesByUser ms) u d = (alookup ms d).bind (fun t => alookup t.claims u) := by
  rw [merkleTreesByUser, claimAt_pivot [] ms u d hn hc]
  simp [claimAt, alookup, Option.or_none]

theorem outputCount_cons (p : String × List (String × ClaimEntry)) (rest : MerkleTreesByUser) :
    outputClaimCount (p :: rest) = p.2.length + outputClaimCount rest := by
  simp [outputClaimCount]

theorem inputCount_cons (p : String × MerkleTree) (rest : MerkleTreesByMonth) :
    inputClaimCount (p :: rest) = p.2.claims.length + inputClaimCount rest := by
  simp [inputClaimCount]

theorem outputCount_insertJS (ui : MerkleTreesByUser) (u : String)
    (um' : List (String × ClaimEntry)) :
    outputClaimCount (insertJS ui u um') + ((alookup ui u).getD []).length
      = outputClaimCount ui + um'.length := by
  induction ui with
  | nil => simp [insertJS, outputClaimCount, alookup]
  | cons p rest ih =>
      obtain ⟨k0, v0⟩ := p
      by_cases h : k0 = u
      · subst h
        simp [insertJS, outputCount_cons, alookup]
        omega
      · simp only [insertJS, h, if_false, outputCount_cons, alookup]
        omega

theorem outputCount_writeClaim (acc : MerkleTreesByUser) (u d : String) (c : ClaimEntry)
    (h : claimAt acc u d = none) :
    outputClaimCount (writeClaim acc u d c) = outputClaimCount acc + 1 := by
  have key := outputCount_insertJS acc u (insertJS ((alookup acc u).getD []) d c)
  have hlen : (insertJS ((alookup acc u).getD []) d c).length
      = ((alookup acc u).getD []).length + 1 := by
    apply length_insertJS_none
    cases hx : alookup acc u with
    | none => rfl
    | some um =>
        unfold claimAt at h
        rw [hx] at h
        simpa using h
  unfold writeClaim
  omega

theorem outputCount_reshapeMonth (acc : MerkleTreesByUser) (d : String) (cs : Claim)
    (hn : keysNodup cs) (h : ∀ p ∈ cs, claimAt acc p.1 d = none) :
    outputClaimCount (reshapeMonth acc d cs) = outputClaimCount acc + cs.length := by
  induction cs generalizing acc with
  | nil => simp [reshapeMonth_nil]
  | cons p rest ih =>
      obtain ⟨u0, c0⟩ := p
      rw [keysNodup_cons] at hn
      rw [reshapeMonth_cons]
      have hstep := outputCount_writeClaim acc u0 d c0 (h (u0, c0) (List.mem_cons_self _ _))
      have hpres : ∀ q ∈ rest, claimAt (writeClaim acc u0 d c0) q.1 d = none := by
        intro q hq
        have hne : q.1 ≠ u0 := by
          intro he
          exact hn.1 (he ▸ mem_keys_of_mem hq)
        rw [claimAt_writeClaim_ne _ _ _ _ _ _ (Or.inl hne)]
        exact h q (List.mem_cons_of_mem _ hq)
      rw [ih _ hn.2 hpres, hstep]
      simp [List.length_cons]
      omega

theorem outputCount_pivot (acc : MerkleTreesByUser) (ms : MerkleTreesByMonth)
    (hn : keysNodup ms) (hc : ∀ p ∈ ms, keysNodup p.2.claims)
    (h : ∀ p ∈ ms, ∀ u, claimAt acc u p.1 = none) :
    outputClaimCount (pivot acc ms) = outputClaimCount acc + inputClaimCount ms := by
  induction ms generalizing acc with
  | nil => simp [pivot_nil, inputClaimCount]
  | cons p rest ih =>
      obtain ⟨d0, t0⟩ := p
      rw [keysNodup_cons] at hn
      rw [pivot_cons]
      have hstep := outputCount_reshapeMonth acc d0 t0.claims
        (hc (d0, t0) (List.mem_cons_self _ _))
        (fun q _ => h (d0, t0) (List.mem_cons_self _ _) q.1)
      have hpres : ∀ q ∈ rest, ∀ u, claimAt (reshapeMonth acc d0 t0.claims) u q.1 = none := by
        intro q hq u
        have hne : q.1 ≠ d0 := by
          intro he
          exact hn.1 (he ▸ mem_keys_of_mem hq)
        rw [claimAt_reshapeMonth_ne_date _ _ _ _ _ hne]
        exact h q (List.mem_cons_of_mem _ hq) u
      rw [ih _ hn.2 (fun q hq => hc q (List.mem_cons_of_mem _ hq)) hpres, hstep, inputCount_cons]
      dsimp only
      omega

/-- The single-schema pivot preserves the total number of claims. -/
theorem count_merkleTreesByUser (ms : MerkleTreesByMonth)
    (hn : keysNodup ms) (hc : ∀ p ∈ ms, keysNodup p.2.claims) :
    outputClaimCount (merkleTreesByUser ms) = inputClaimCount ms := by
  rw [merkleTreesByUser, outputCount_pivot [] ms hn hc (fun p _ u => rfl)]
  simp [outputClaimCount]

theorem mem_keys_writeClaim (acc : MerkleTreesByUser) (u d : String) (c : ClaimEntry)
    (u' : String) (h : u' ∈ keys (writeClaim acc u d c)) : u' ∈ keys acc ∨ u' = u :=
  (mem_keys_insertJS acc u u' _).mp h

theorem mem_keys_reshapeMonth (acc : MerkleTreesByUser) (d : String) (cs : Claim)
    (u' : String) (h : u' ∈ keys (reshapeMonth acc d cs)) :
    u' ∈ keys acc ∨ u' ∈ keys cs := by
  induction cs generalizing acc with
  | nil => exact Or.inl h
  | cons p rest ih =>
      rw [reshapeMonth_cons] at h
      rcases ih _ h with h1 | h1
      · rcases mem_keys_writeClaim _ _ _ _ _ h1 with h2 | h2
        · exact Or.inl h2
        · right; rw [keys_cons]; exact List.mem_cons.mpr (Or.inl h2)
      · right; rw [keys_cons]; exact List.mem_cons.mpr (Or.inr h1)

theorem mem_keys_pivot (acc : MerkleTreesByUser) (ms : MerkleTreesByMonth)
    (u' : String) (h : u' ∈ keys (pivot acc ms)) :
    u' ∈ keys acc ∨ ∃ p ∈ ms, u' ∈ keys p.2.claims := by
  induction ms generalizing acc with
  | nil => exact Or.inl h
  | cons p rest ih =>
      rw [pivot_cons] at h
      rcases ih _ h with h1 | ⟨q, hq, h2⟩
      · rcases mem_keys_reshapeMonth _ _ _ _ h1 with h2 | h2
        · exact Or.inl h2
        · exact Or.inr ⟨p, List.mem_cons_self _ _, h2⟩
      · exact Or.inr ⟨q, List.mem_cons_of_mem _ hq, h2⟩

/-- Every user key of the single-schema output originates in some input month's claims. -/
theorem mem_keys_merkleTreesByUser (ms : MerkleTreesByMonth) (u' : String)
    (h : u' ∈ keys (merkleTreesByUser ms)) : ∃ p ∈ ms, u' ∈ keys p.2.claims := by
  rw [merkleTreesByUser] at h
  rcases mem_keys_pivot [] ms u' h with h1 | h2
  · simp [keys] at h1
  · exact h2

end Single

/-! ## Reshape lemmas: dual-schema variant -/

namespace Dual

theorem writeAll_nil (acc : MerkleTreesByUser) (tok d : String) :
    writeAll acc tok d [] = acc := rfl

theorem writeAll_cons (acc : MerkleTreesByUser) (tok d : String) (p : String × Recipient)
    (rest : List (String × Recipient)) :
    writeAll acc tok d (p :: rest) = writeAll (writeRecipient acc p.1 tok d p.2) tok d rest := rfl

theorem reshapeTree_eq (acc : MerkleTreesByUser) (tok d : String) (t : MerkleTree) :
    reshapeTree acc tok d t = writeAll acc tok d t.recipients := rfl

theorem reshapeMonthD_nil (acc : MerkleTreesByUser) (d : String) :
    reshapeMonth acc d [] = acc := rfl

theorem reshapeMonthD_cons (acc : MerkleTreesByUser) (d : String)
    (p : String × MerkleTree) (rest : List (String × MerkleTree)) :
    reshapeMonth acc d (p :: rest) = reshapeMonth (reshapeTree acc p.1 d p.2) d rest := rfl

theorem pivotD_nil (acc : MerkleTreesByUser) : pivot acc [] = acc := rfl

theorem pivotD_cons (acc : MerkleTreesByUser) (p : String × List (String × MerkleTree))
    (rest : MerkleTreesByMonth) :
    pivot acc (p :: rest) = pivot (reshapeMonth acc p.1 p.2) rest := rfl

theorem recipientAt_writeRecipient_self (acc : MerkleTreesByUser) (u tok d : String)
    (r : Recipient) : recipientAt (writeRecipient acc u tok d r) u tok d = some r := by
  simp only [recipientAt, writeRecipient]
  rw [alookup_insertJS_self]
  simp [alookup_insertJS_self]

theorem alookup_writeRecipient_ne_user (acc : MerkleTreesByUser) (u u' tok d : String)
    (r : Recipient) (h : u' ≠ u) :
    alookup (writeRecipient acc u tok d r) u' = alookup acc u' := by
  simp only [writeRecipient]
  exact alookup_insertJS_ne acc u u' _ h

theorem recipientAt_writeRecipient_ne (acc : MerkleTreesByUser) (u tok d : String)
    (r : Recipient) (u' tok' d' : String) (h : u' ≠ u ∨ tok' ≠ tok ∨ d' ≠ d) :
    recipientAt (writeRecipient acc u tok d r) u' tok' d' = recipientAt acc u' tok' d' := by
  by_cases hu : u' = u
  · subst hu
    by_cases ht : tok' = tok
    · subst ht
      have hd : d' ≠ d := by tauto
      simp only [recipientAt, writeRecipient]
      rw [alookup_insertJS_self]
      cases hx : alookup acc u' with
      | none => simp [hx, alookup_insertJS_self, insertJS, alookup, Ne.symm hd]
      | some um =>
          simp only [hx, Option.getD_some, Option.some_bind]
          rw [alookup_insertJS_self]
          cases hy : alookup um tok' with
          | none => simp [hy, insertJS, alookup, Ne.symm hd]
          | some tm =>
              simp only [hy, Option.getD_some, Option.some_bind]
              exact alookup_insertJS_ne tm d d' r hd
    · simp only [recipientAt, writeRecipient]
      rw [alookup_insertJS_self]
      cases hx : alookup acc u' with
      | none => simp [hx, insertJS, alookup, Ne.symm ht]
      | some um =>
          simp only [hx, Option.getD_some, Option.some_bind]
          rw [alookup_insertJS_ne um tok tok' _ ht]
  · simp only [recipientAt]
    rw [alookup_writeRecipient_ne_user acc u u' tok d r hu]

theorem recipientAt_writeAll_ne (acc : MerkleTreesByUser) (tok d : String)
    (rs : List (String × Recipient)) (u tok' d' : String) (h : tok' ≠ tok ∨ d' ≠ d) :
    recipientAt (writeAll acc tok d rs) u tok' d' = recipientAt acc u tok' d' := by
  induction rs generalizing acc with
  | nil => rfl
  | cons p rest ih =>
      rw [writeAll_cons, ih, recipientAt_writeRecipient_ne _ _ _ _ _ _ _ _ (Or.inr h)]

theorem alookup_writeAll_not_mem (acc : MerkleTreesByUser) (tok d : String)
    (rs : List (String × Recipient)) (u : String) (h : u ∉ keys rs) :
    alookup (writeAll acc tok d rs) u = alookup acc u := by
  induction rs generalizing acc with
  | nil => rfl
  | cons p rest ih =>
      rw [keys_cons] at h
      simp only [List.mem_cons, not_or] at h
      rw [writeAll_cons, ih _ h.2, alookup_writeRecipient_ne_user _ _ _ _ _ _ h.1]

theorem recipientAt_writeAll_at (acc : MerkleTreesByUser) (tok d : String)
    (rs : List (String × Recipient)) (u : String) (hn : keysNodup rs) :
    recipientAt (writeAll acc tok d rs) u tok d
      = (alookup rs u).or (recipientAt acc u tok d) := by
  induction rs generalizing acc with
  | nil => simp [writeAll_nil, alookup]
  | cons p rest ih =>
      obtain ⟨u0, r0⟩ := p
      rw [keysNodup_cons] at hn
      by_cases hu : u = u0
      · subst hu
        rw [writeAll_cons]
        have h1 : recipientAt (writeAll (writeRecipient acc u tok d r0) tok d rest) u tok d
            = recipientAt (writeRecipient acc u tok d r0) u tok d := by
          unfold recipientAt
          rw [alookup_writeAll_not_mem _ _ _ _ _ hn.1]
        rw [h1, recipientAt_writeRecipient_self]
        simp [alookup]
      · rw [writeAll_cons, ih _ hn.2,
            recipientAt_writeRecipient_ne _ _ _ _ _ _ _ _ (Or.inl hu)]
        simp [alookup, Ne.symm hu]

theorem recipientAt_reshapeMonthD_ne_date (acc : MerkleTreesByUser) (d : String)
    (byTok : List (String × MerkleTree)) (u tok' d' : String) (h : d' ≠ d) :
    recipientAt (reshapeMonth acc d byTok) u tok' d' = recipientAt acc u tok' d' := by
  induction byTok generalizing acc with
  | nil => rfl
  | cons p rest ih =>
      rw [reshapeMonthD_cons, ih, reshapeTree_eq,
          recipientAt_writeAll_ne _ _ _ _ _ _ _ (Or.inr h)]

theorem recipientAt_reshapeMonthD_not_mem (acc : MerkleTreesByUser) (d : String)
    (byTok : List (String × MerkleTree)) (u tok x : String) (h : tok ∉ keys byTok) :
    recipientAt (reshapeMonth acc d byTok) u tok x = recipientAt acc u tok x := by
  induction byTok generalizing acc with
  | nil => rfl
  | cons p rest ih =>
      rw [keys_cons] at h
      simp only [List.mem_cons, not_or] at h
      rw [reshapeMonthD_cons, ih _ h.2, reshapeTree_eq,
          recipientAt_writeAll_ne _ _ _ _ _ _ _ (Or.inl h.1)]

theorem recipientAt_reshapeMonthD_at (acc : MerkleTreesByUser) (d : String)
    (byTok : List (String × MerkleTree)) (u tok : String) (hn : keysNodup byTok)
    (hr : ∀ p ∈ byTok, keysNodup p.2.recipients) :
    recipientAt (reshapeMonth acc d byTok) u tok d
      = ((alookup byTok tok).bind (fun t => alookup t.recipients u)).or
          (recipientAt acc u tok d) := by
  induction byTok generalizing acc with
  | nil => simp [reshapeMonthD_nil, alookup]
  | cons p rest ih =>
      obtain ⟨tok0, t0⟩ := p
      rw [keysNodup_cons] at hn
      by_cases ht : tok = tok0
      · subst ht
        rw [reshapeMonthD_cons,
            recipientAt_reshapeMonthD_not_mem _ _ _ _ _ _ hn.1,
            reshapeTree_eq,
            recipientAt_writeAll_at _ _ _ _ _ (hr (tok, t0) (List.mem_cons_self _ _))]
        simp [alookup]
      · rw [reshapeMonthD_cons, ih _ hn.2 (fun q hq => hr q (List.mem_cons_of_mem _ hq)),
            reshapeTree_eq, recipientAt_writeAll_ne _ _ _ _ _ _ _ (Or.inl ht)]
        simp [alookup, Ne.symm ht]

theorem recipientAt_pivotD_none (acc : MerkleTreesByUser) (ms : MerkleTreesByMonth)
    (u tok d : String) (h : alookup ms d = none) :
    recipientAt (pivot acc ms) u tok d = recipientAt acc u tok d := by
  induction ms generalizing acc with
  | nil => rfl
  | cons p rest ih =>
      obtain ⟨d0, bt0⟩ := p
      by_cases hd : d0 = d
      · simp [alookup, hd] at h
      · simp only [alookup, hd, if_false] at h
        rw [pivotD_cons, ih _ h, recipientAt_reshapeMonthD_ne_date _ _ _ _ _ _ (Ne.symm hd)]

theorem recipientAt_pivotD (acc : MerkleTreesByUser) (ms : MerkleTreesByMonth)
    (u tok d : String) (hn : keysNodup ms) (hm : ∀ p ∈ ms, keysNodup p.2)
    (hr : ∀ p ∈ ms, ∀ q ∈ p.2, keysNodup q.2.recipients) :
    recipientAt (pivot acc ms) u tok d
      = ((alookup ms d).bind
          (fun bt => (alookup bt tok).bind (fun t => alookup t.recipients u))).or
          (recipientAt acc u tok d) := by
  induction ms generalizing acc with
  | nil => simp [pivotD_nil, alookup]
  | cons p rest ih =>
      obtain ⟨d0, bt0⟩ := p
      rw [keysNodup_cons] at hn
      by_cases hd : d = d0
      · subst hd
        rw [pivotD_cons,
            recipientAt_pivotD_none _ _ _ _ _ ((alookup_eq_none_iff rest d).mpr hn.1),
            recipientAt_reshapeMonthD_at _ _ _ _ _ (hm (d, bt0) (List.mem_cons_self _ _))
              (fun q hq => hr (d, bt0) (List.mem_cons_self _ _) q hq)]
        simp [alookup]
      · rw [pivotD_cons,
            ih _ hn.2 (fun q hq => hm q (List.mem_cons_of_mem _ hq))
              (fun q hq => hr q (List.mem_cons_of_mem _ hq)),
            recipientAt_reshapeMonthD_ne_date _ _ _ _ _ _ hd]
        simp [alookup, Ne.symm hd]

/-- The dual-schema pivot, characterized pointwise: the output holds at
`[user][token][month]` exactly the recipient entry the input holds at
`[month][token].recipients[user]`. -/
theorem recipientAt_merkleTreesByUser (ms : MerkleTreesByMonth) (u tok d : String)
    (hn : keysNodup ms) (hm : ∀ p ∈ ms, keysNodup p.2)
    (hr : ∀ p ∈ ms, ∀ q ∈ p.2, keysNodup q.2.recipients) :
    recipientAt (merkleTreesByUser ms) u tok d
      = (alookup ms d).bind
          (fun bt => (alookup bt tok).bind (fun t => alookup t.recipients u)) := by
  rw [merkleTreesByUser, recipientAt_pivotD [] ms u tok d hn hm hr]
  simp [recipientAt, alookup, Option.or_none]

theorem outputCountD_cons (p : String × List (String × List (String × Recipient)))
    (rest : MerkleTreesByUser) :
    outputRecipientCount (p :: rest) = userSize p.2 + outputRecipientCount rest := by
  simp [outputRecipientCount]

theorem inputCountD_cons (p : String × List (String × MerkleTree))
    (rest : MerkleTreesByMonth) :
    inputRecipientCount (p :: rest)
      = (p.2.map (fun q => q.2.recipients.length)).sum + inputRecipientCount rest := by
  simp [inputRecipientCount]

theorem outputCountD_writeRecipient (acc : MerkleTreesByUser) (u tok d : String)
    (r : Recipient) (h : recipientAt acc u tok d = none) :
    outputRecipientCount (writeRecipient acc u tok d r) = outputRecipientCount acc + 1 := by
  have hd2 : alookup ((alookup ((alookup acc u).getD []) tok).getD []) d = none := by
    unfold recipientAt at h
    cases hx : alookup acc u with
    | none => rfl
    | some um0 =>
        rw [hx] at h
        simp only [Option.getD_some, Option.some_bind] at h ⊢
        cases hy : alookup um0 tok with
        | none => rfl
        | some tm0 =>
            rw [hy] at h
            simp only [Option.getD_some, Option.some_bind] at h ⊢
            exact h
  simp only [writeRecipient]
  have A := sizeSum_insertJS userSize acc u
    (insertJS ((alookup acc u).getD []) tok
      (insertJS ((alookup ((alookup acc u).getD []) tok).getD []) d r))
  have B := sizeSum_insertJS List.length ((alookup acc u).getD []) tok
    (insertJS ((alookup ((alookup acc u).getD []) tok).getD []) d r)
  have C := length_insertJS_none r hd2
  have hum : ((alookup acc u).map userSize).getD 0 = userSize ((alookup acc u).getD []) := by
    cases alookup acc u <;> rfl
  have htok : ((alookup ((alookup acc u).getD []) tok).map List.length).getD 0
      = ((alookup ((alookup acc u).getD []) tok).getD []).length := by
    cases alookup ((alookup acc u).getD []) tok <;> rfl
  have A2 : outputRecipientCount (insertJS acc u
        (insertJS ((alookup acc u).getD []) tok
          (insertJS ((alookup ((alookup acc u).getD []) tok).getD []) d r)))
      + ((alookup acc u).map userSize).getD 0
      = outputRecipientCount acc
        + userSize (insertJS ((alookup acc u).getD []) tok
            (insertJS ((alookup ((alookup acc u).getD []) tok).getD []) d r)) := A
  have B2 : userSize (insertJS ((alookup acc u).getD []) tok
        (insertJS ((alookup ((alookup acc u).getD []) tok).getD []) d r))
      + ((alookup ((alookup acc u).getD []) tok).map List.length).getD 0
      = userSize ((alookup acc u).getD [])
        + (insertJS ((alookup ((alookup acc u).getD []) tok).getD []) d r).length := B
  omega

theorem outputCountD_writeAll (acc : MerkleTreesByUser) (tok d : String)
    (rs : List (String × Recipient)) (hn : keysNodup rs)
    (h : ∀ p ∈ rs, recipientAt acc p.1 tok d = none) :
    outputRecipientCount (writeAll acc tok d rs) = outputRecipientCount acc + rs.length := by
  induction rs generalizing acc with
  | nil => simp [writeAll_nil]
  | cons p rest ih =>
      obtain ⟨u0, r0⟩ := p
      rw [keysNodup_cons] at hn
      rw [writeAll_cons]
      have hstep := outputCountD_writeRecipient acc u0 tok d r0
        (h (u0, r0) (List.mem_cons_self _ _))
      have hpres : ∀ q ∈ rest, recipientAt (writeRecipient acc u0 tok d r0) q.1 tok d = none := by
        intro q hq
        have hne : q.1 ≠ u0 := fun he => hn.1 (he ▸ mem_keys_of_mem hq)
        rw [recipientAt_writeRecipient_ne _ _ _ _ _ _ _ _ (Or.inl hne)]
        exact h q (List.mem_cons_of_mem _ hq)
      rw [ih _ hn.2 hpres, hstep]
      simp [List.length_cons]
      omega

theorem outputCountD_reshapeMonth (acc : MerkleTreesByUser) (d : String)
    (byTok : List (String × MerkleTree)) (hn : keysNodup byTok)
    (hr : ∀ p ∈ byTok, keysNodup p.2.recipients)
    (h : ∀ p ∈ byTok, ∀ u, recipientAt acc u p.1 d = none) :
    outputRecipientCount (reshapeMonth acc d byTok)
      = outputRecipientCount acc + (byTok.map (fun q => q.2.recipients.length)).sum := by
  induction byTok generalizing acc with
  | nil => simp [reshapeMonthD_nil]
  | cons p rest ih =>
      obtain ⟨tok0, t0⟩ := p
      rw [keysNodup_cons] at hn
      rw [reshapeMonthD_cons, reshapeTree_eq]
      have hstep := outputCountD_writeAll acc tok0 d t0.recipients
        (hr (tok0, t0) (List.mem_cons_self _ _))
        (fun q _ => h (tok0, t0) (List.mem_cons_self _ _) q.1)
      have hpres : ∀ q ∈ rest, ∀ u,
          recipientAt (writeAll acc tok0 d t0.recipients) u q.1 d = none := by
        intro q hq u
        have hne : q.1 ≠ tok0 := fun he => hn.1 (he ▸ mem_keys_of_mem hq)
        rw [recipientAt_writeAll_ne _ _ _ _ _ _ _ (Or.inl hne)]
        exact h q (List.mem_cons_of_mem _ hq) u
      rw [ih _ hn.2 (fun q hq => hr q (List.mem_cons_of_mem _ hq)) hpres, hstep]
      simp only [List.map_cons, List.sum_cons]
      omega

theorem outputCountD_pivot (acc : MerkleTreesByUser) (ms : MerkleTreesByMonth)
    (hn : keysNodup ms) (hm : ∀ p ∈ ms, keysNodup p.2)
    (hr : ∀ p ∈ ms, ∀ q ∈ p.2, keysNodup q.2.recipients)
    (h : ∀ p ∈ ms, ∀ u tok, recipientAt acc u tok p.1 = none) :
    outputRecipientCount (pivot acc ms) = outputRecipientCount acc + inputRecipientCount ms := by
  induction ms generalizing acc with
  | nil => simp [pivotD_nil, inputRecipientCount]
  | cons p rest ih =>
      obtain ⟨d0, bt0⟩ := p
      rw [keysNodup_cons] at hn
      rw [pivotD_cons]
      have hstep := outputCountD_reshapeMonth acc d0 bt0
        (hm (d0, bt0) (List.mem_cons_self _ _))
        (fun q hq => hr (d0, bt0) (List.mem_cons_self _ _) q hq)
        (fun q _ u => h (d0, bt0) (List.mem_cons_self _ _) u q.1)
      have hpres : ∀ q ∈ rest, ∀ u tok,
          recipientAt (reshapeMonth acc d0 bt0) u tok q.1 = none := by
        intro q hq u tok
        have hne : q.1 ≠ d0 := fun he => hn.1 (he ▸ mem_keys_of_mem hq)
        rw [recipientAt_reshapeMonthD_ne_date _ _ _ _ _ _ hne]
        exact h q (List.mem_cons_of_mem _ hq) u tok
      rw [ih _ hn.2 (fun q hq => hm q (List.mem_cons_of_mem _ hq))
            (fun q hq => hr q (List.mem_cons_of_mem _ hq)) hpres, hstep, inputCountD_cons]
      dsimp only
      omega

/-- The dual-schema pivot preserves the total number of recipient entries. -/
theorem countD_merkleTreesByUser (ms : MerkleTreesByMonth) (hn : keysNodup ms)
    (hm : ∀ p ∈ ms, keysNodup p.2)
    (hr : ∀ p ∈ ms, ∀ q ∈ p.2, keysNodup q.2.recipients) :
    outputRecipientCount (merkleTreesByUser ms) = inputRecipientCount ms := by
  rw [merkleTreesByUser, outputCountD_pivot [] ms hn hm hr (fun p _ u tok => rfl)]
  simp [outputRecipientCount]

theorem mem_keys_writeRecipient (acc : MerkleTreesByUser) (u tok d : String) (r : Recipient)
    (u' : String) (h : u' ∈ keys (writeRecipient acc u tok d r)) :
    u' ∈ keys acc ∨ u' = u := by
  simp only [writeRecipient] at h
  exact (mem_keys_insertJS acc u u' _).mp h

theorem mem_keys_writeAll (acc : MerkleTreesByUser) (tok d : String)
    (rs : List (String × Recipient)) (u' : String) (h : u' ∈ keys (writeAll acc tok d rs)) :
    u' ∈ keys acc ∨ u' ∈ keys rs := by
  induction rs generalizing acc with
  | nil => exact Or.inl h
  | cons p rest ih =>
      rw [writeAll_cons] at h
      rcases ih _ h with h1 | h1
      · rcases mem_keys_writeRecipient _ _ _ _ _ _ h1 with h2 | h2
        · exact Or.inl h2
        · right; rw [keys_cons]; exact List.mem_cons.mpr (Or.inl h2)
      · right; rw [keys_cons]; exact List.mem_cons.mpr (Or.inr h1)

theorem mem_keys_reshapeMonthD (acc : MerkleTreesByUser) (d : String)
    (byTok : List (String × MerkleTree)) (u' : String)
    (h : u' ∈ keys (reshapeMonth acc d byTok)) :
    u' ∈ keys acc ∨ ∃ q ∈ byTok, u' ∈ keys q.2.recipients := by
  induction byTok generalizing acc with
  | nil => exact Or.inl h
  | cons p rest ih =>
      rw [reshapeMonthD_cons, reshapeTree_eq] at h
      rcases ih _ h with h1 | ⟨q, hq, h2⟩
      · rcases mem_keys_writeAll _ _ _ _ _ h1 with h2 | h2
        · exact Or.inl h2
        · exact Or.inr ⟨p, List.mem_cons_self _ _, h2⟩
      · exact Or.inr ⟨q, List.mem_cons_of_mem _ hq, h2⟩

theorem mem_keys_pivotD (acc : MerkleTreesByUser) (ms : MerkleTreesByMonth) (u' : String)
    (h : u' ∈ keys (pivot acc ms)) :
    u' ∈ keys acc ∨ ∃ p ∈ ms, ∃ q ∈ p.2, u' ∈ keys q.2.recipients := by
  induction ms generalizing acc with
  | nil => exact Or.inl h
  | cons p rest ih =>
      rw [pivotD_cons] at h
      rcases ih _ h with h1 | ⟨m, hm2, q, hq, h2⟩
      · rcases mem_keys_reshapeMonthD _ _ _ _ h1 with h2 | ⟨q, hq, h3⟩
        · exact Or.inl h2
        · exact Or.inr ⟨p, List.mem_cons_self _ _, q, hq, h3⟩
      · exact Or.inr ⟨m, List.mem_cons_of_mem _ hm2, q, hq, h2⟩

/-- Every user key of the dual-schema output originates in some input month's
token file's recipients. -/
theorem mem_keys_merkleTreesByUserD (ms : MerkleTreesByMonth) (u' : String)
    (h : u' ∈ keys (merkleTreesByUser ms)) :
    ∃ p ∈ ms, ∃ q ∈ p.2, u' ∈ keys q.2.recipients := by
  rw [merkleTreesByUser] at h
  rcases mem_keys_pivotD [] ms u' h with h1 | h2
  · simp [keys] at h1
  · exact h2

end Dual

/-! ## Month-index builder lemmas: single-schema variant -/

namespace Single

theorem processFiles_nil (parse : String → Except Thrown MerkleTree) (month : String)
    (acc : MerkleTreesByMonth) : processFiles parse month acc [] = Except.ok acc := rfl

theorem processFiles_cons (parse : String → Except Thrown MerkleTree) (month : String)
    (acc : MerkleTreesByMonth) (el : FileEntry) (rest : List FileEntry) :
    processFiles parse month acc (el :: rest)
      = match processFile parse month acc el with
        | Except.error t => Except.error t
        | Except.ok a2 => processFiles parse month a2 rest := rfl

theorem buildMonths_nil (parse : String → Except Thrown MerkleTree)
    (acc : MerkleTreesByMonth) : buildMonths parse acc [] = Except.ok acc := rfl

theorem buildMonths_cons (parse : String → Except Thrown MerkleTree)
    (acc : MerkleTreesByMonth) (e : TreeEntry) (rest : List TreeEntry) :
    buildMonths parse acc (e :: rest)
      = match buildMonth parse acc e with
        | Except.error t => Except.error t
        | Except.ok a2 => buildMonths parse a2 rest := rfl

theorem processFiles_filter (parse : String → Except Thrown MerkleTree) (month : String)
    (els : List FileEntry) : ∀ acc,
    processFiles parse month acc els
      = processFiles parse month acc (els.filter recognizedS) := by
  induction els with
  | nil => intro acc; rfl
  | cons el rest ih =>
      intro acc
      by_cases h : recognizedS el = true
      · rw [List.filter_cons_of_pos h, processFiles_cons, processFiles_cons]
        cases processFile parse month acc el with
        | error t => rfl
        | ok a2 => exact ih a2
      · have hne : ¬(el.name = "merkle-tree.json") := by simpa [recognizedS] using h
        rw [List.filter_cons_of_neg (by simpa [recognizedS] using h), processFiles_cons]
        have hok : processFile parse month acc el = Except.ok acc := by
          simp [processFile, hne]
        rw [hok]
        exact ih acc

theorem buildMonth_filter (parse : String → Except Thrown MerkleTree)
    (acc : MerkleTreesByMonth) (e : TreeEntry) :
    buildMonth parse acc e = buildMonth parse acc (dropUnrecognizedS e) := by
  unfold buildMonth dropUnrecognizedS
  cases he : e.object.entries with
  | none => simp [he]
  | some els => simp [he, processFiles_filter]

theorem buildMonths_filter (parse : String → Except Thrown MerkleTree)
    (entries : List TreeEntry) : ∀ acc,
    buildMonths parse acc entries = buildMonths parse acc (entries.map dropUnrecognizedS) := by
  induction entries with
  | nil => intro acc; rfl
  | cons e rest ih =>
      intro acc
      rw [List.map_cons, buildMonths_cons, buildMonths_cons, ← buildMonth_filter]
      cases buildMonth parse acc e with
      | error t => rfl
      | ok a2 => exact ih a2

theorem processFiles_no_recognized (parse : String → Except Thrown MerkleTree) (month : String)
    (els : List FileEntry) (h : ∀ el ∈ els, recognizedS el = false) : ∀ acc,
    processFiles parse month acc els = Except.ok acc := by
  induction els with
  | nil => intro acc; rfl
  | cons el rest ih =>
      intro acc
      have hne : ¬(el.name = "merkle-tree.json") := by
        simpa [recognizedS] using h el (List.mem_cons_self _ _)
      rw [processFiles_cons]
      have hok : processFile parse month acc el = Except.ok acc := by
        simp [processFile, hne]
      rw [hok]
      exact ih (fun q hq => h q (List.mem_cons_of_mem _ hq)) acc

theorem alookup_processFiles_ne (parse : String → Except Thrown MerkleTree) (month : String)
    (els : List FileEntry) (d : String) (hd : d ≠ month) :
    ∀ acc m, processFiles parse month acc els = Except.ok m → alookup m d = alookup acc d := by
  induction els with
  | nil =>
      intro acc m h
      rw [processFiles_nil] at h
      injection h with h2
      subst h2
      rfl
  | cons el rest ih =>
      intro acc m h
      rw [processFiles_cons] at h
      cases hf : processFile parse month acc el with
      | error t => rw [hf] at h; cases h
      | ok a2 =>
          rw [hf] at h
          have step : alookup a2 d = alookup acc d := by
            unfold processFile at hf
            by_cases hn : el.name = "merkle-tree.json"
            · rw [if_pos hn] at hf
              cases hp : parse el.object.text with
              | error t => rw [hp] at hf; cases hf
              | ok mt =>
                  rw [hp] at hf
                  injection hf with h2
                  subst h2
                  exact alookup_insertJS_ne acc month d mt hd
            · rw [if_neg hn] at hf
              injection hf with h2
              subst h2
              rfl
          rw [ih _ _ h, step]

theorem alookup_buildMonth_ne (parse : String → Except Thrown MerkleTree)
    (acc : MerkleTreesByMonth) (e : TreeEntry) (m : MerkleTreesByMonth) (d : String)
    (hd : d ≠ e.name) (h : buildMonth parse acc e = Except.ok m) :
    alookup m d = alookup acc d := by
  unfold buildMonth at h
  cases he : e.object.entries with
  | none => rw [he] at h; cases h
  | some els =>
      rw [he] at h
      exact alookup_processFiles_ne parse e.name els d hd acc m h

theorem buildMonth_no_recognized (parse : String → Except Thrown MerkleTree)
    (acc : MerkleTreesByMonth) (e : TreeEntry) (els : List FileEntry)
    (he : e.object.entries = some els) (h : ∀ el ∈ els, recognizedS el = false) :
    buildMonth parse acc e = Except.ok acc := by
  unfold buildMonth
  rw [he]
  exact processFiles_no_recognized parse e.name els h acc

theorem alookup_buildMonths_none (parse : String → Except Thrown MerkleTree)
    (entries : List TreeEntry) (d : String)
    (hent : ∀ e ∈ entries, e.name = d →
      ∀ els, e.object.entries = some els → ∀ el ∈ els, recognizedS el = false) :
    ∀ acc m, buildMonths parse acc entries = Except.ok m → alookup acc d = none →
      alookup m d = none := by
  induction entries with
  | nil =>
      intro acc m h hacc
      rw [buildMonths_nil] at h
      injection h with h2
      subst h2
      exact hacc
  | cons e rest ih =>
      intro acc m h hacc
      rw [buildMonths_cons] at h
      cases hb : buildMonth parse acc e with
      | error t => rw [hb] at h; cases h
      | ok a2 =>
          rw [hb] at h
          have ha2 : alookup a2 d = none := by
            by_cases hname : e.name = d
            · cases he : e.object.entries with
              | none => unfold buildMonth at hb; rw [he] at hb; cases hb
              | some els =>
                  have hid := buildMonth_no_recognized parse acc e els he
                    (hent e (List.mem_cons_self _ _) hname els he)
                  rw [hid] at hb
                  injection hb with h2
                  subst h2
                  exact hacc
            · rw [alookup_buildMonth_ne parse acc e a2 d (fun hh => hname hh.symm) hb]
              exact hacc
          exact ih (fun q hq => hent q (List.mem_cons_of_mem _ hq)) a2 m h ha2

theorem buildMonths_no_recognized (parse : String → Except Thrown MerkleTree)
    (entries : List TreeEntry)
    (h : ∀ e ∈ entries, ∃ els, e.object.entries = some els
          ∧ ∀ el ∈ els, recognizedS el = false) :
    ∀ acc, buildMonths parse acc entries = Except.ok acc := by
  induction entries with
  | nil => intro acc; rfl
  | cons e rest ih =>
      intro acc
      obtain ⟨els, he, hels⟩ := h e (List.mem_cons_self _ _)
      rw [buildMonths_cons, buildMonth_no_recognized parse acc e els he hels]
      exact ih (fun q hq => h q (List.mem_cons_of_mem _ hq)) acc

theorem buildMonths_error_of_none (parse : String → Except Thrown MerkleTree)
    (entries : List TreeEntry) (e : TreeEntry) (he : e ∈ entries)
    (hn : e.object.entries = none) :
    ∀ acc, ∃ t, buildMonths parse acc entries = Except.error t := by
  induction entries with
  | nil => cases he
  | cons a rest ih =>
      intro acc
      rcases List.mem_cons.mp he with rfl | hmem
      · have hb : buildMonth parse acc e
            = Except.error (Thrown.errorObj "Cannot read properties of undefined (reading 'map')") := by
          unfold buildMonth
          rw [hn]
        exact ⟨_, by rw [buildMonths_cons, hb]⟩
      · cases hb : buildMonth parse acc a with
        | error t => exact ⟨t, by rw [buildMonths_cons, hb]⟩
        | ok a2 =>
            obtain ⟨t, ht⟩ := ih hmem a2
            exact ⟨t, by rw [buildMonths_cons, hb]; exact ht⟩

end Single

/-! ## Month-index builder lemmas: dual-schema variant -/

namespace Dual

theorem buildMonthsD_cons (parse : String → Except Thrown MerkleTree)
    (acc : MerkleTreesByMonth) (e : TreeEntry) (rest : List TreeEntry) :
    buildMonths parse acc (e :: rest)
      = match buildMonth parse acc e with
        | Except.error t => Except.error t
        | Except.ok a2 => buildMonths parse a2 rest := rfl

theorem buildMonthsD_error_of_none (parse : String → Except Thrown MerkleTree)
    (entries : List TreeEntry) (e : TreeEntry) (he : e ∈ entries)
    (hn : e.object.entries = none) :
    ∀ acc, ∃ t, buildMonths parse acc entries = Except.error t := by
  induction entries with
  | nil => cases he
  | cons a rest ih =>
      intro acc
      rcases List.mem_cons.mp he with rfl | hmem
      · have hb : buildMonth parse acc e
            = Except.error (Thrown.errorObj "Cannot read properties of undefined (reading 'map')") := by
          unfold buildMonth
          rw [hn]
        exact ⟨_, by rw [buildMonthsD_cons, hb]⟩
      · cases hb : buildMonth parse acc a with
        | error t => exact ⟨t, by rw [buildMonthsD_cons, hb]⟩
        | ok a2 =>
            obtain ⟨t, ht⟩ := ih hmem a2
            exact ⟨t, by rw [buildMonthsD_cons, hb]; exact ht⟩

end Dual

/-! ## Publish-sequence lemmas -/

theorem publish_getRef_error (o : GitOracle) (content : String) (t : Thrown)
    (h : o.getRefResult = Except.error t) :
    publish o content = ([ApiCall.getRef], Except.error t) := by
  unfold publish
  rw [h]

theorem branchAfter_publish_error (o : GitOracle) (content init : String) (t : Thrown)
    (h : (publish o content).2 = Except.error t) :
    branchAfter o init (publish o content).1 = init := by
  cases hg : o.getRefResult with
  | error t2 => simp [publish, hg, branchAfter, List.foldl]
  | ok tip =>
      cases hb : o.createBlobResult content with
      | error t2 => simp [publish, hg, hb, branchAfter, List.foldl]
      | ok blobSha =>
          cases ht : o.createTreeResult treePath blobSha tip with
          | error t2 => simp [publish, hg, hb, ht, branchAfter, List.foldl]
          | ok treeSha =>
              cases hc : o.createCommitResult commitMessage treeSha [tip] with
              | error t2 => simp [publish, hg, hb, ht, hc, branchAfter, List.foldl]
              | ok commitSha =>
                  cases hu : o.updateRefResult commitSha with
                  | error t2 => simp [publish, hg, hb, ht, hc, hu, branchAfter, List.foldl]
                  | ok u => simp [publish, hg, hb, ht, hc, hu] at h

theorem publish_ok (o : GitOracle) (content : String) (u : Unit)
    (h : (publish o content).2 = Except.ok u) :
    ∃ tip blobSha treeSha commitSha,
      o.getRefResult = Except.ok tip
      ∧ o.createBlobResult content = Except.ok blobSha
      ∧ o.createTreeResult treePath blobSha tip = Except.ok treeSha
      ∧ o.createCommitResult commitMessage treeSha [tip] = Except.ok commitSha
      ∧ o.updateRefResult commitSha = Except.ok ()
      ∧ (publish o content).1
          = [ApiCall.getRef, ApiCall.createBlob content,
             ApiCall.createTree treePath blobSha tip,
             ApiCall.createCommit commitMessage treeSha [tip],
             ApiCall.updateRef commitSha] := by
  cases hg : o.getRefResult with
  | error t2 => simp [publish, hg] at h
  | ok tip =>
      cases hb : o.createBlobResult content with
      | error t2 => simp [publish, hg, hb] at h
      | ok blobSha =>
          cases ht : o.createTreeResult treePath blobSha tip with
          | error t2 => simp [publish, hg, hb, ht] at h
          | ok treeSha =>
              cases hc : o.createCommitResult commitMessage treeSha [tip] with
              | error t2 => simp [publish, hg, hb, ht, hc] at h
              | ok commitSha =>
                  cases hu : o.updateRefResult commitSha with
                  | error t2 => simp [publish, hg, hb, ht, hc, hu] at h
                  | ok u2 =>
                      exact ⟨tip, blobSha, treeSha, commitSha, rfl, rfl, ht, hc,
                        by cases u2; exact hu,
                        by simp [publish, hg, hb, ht, hc, hu]⟩

theorem publish_all_ok (o : GitOracle) (content tip blobSha treeSha commitSha : String)
    (hg : o.getRefResult = Except.ok tip)
    (hb : o.createBlobResult content = Except.ok blobSha)
    (ht : o.createTreeResult treePath blobSha tip = Except.ok treeSha)
    (hc : o.createCommitResult commitMessage treeSha [tip] = Except.ok commitSha)
    (hu : o.updateRefResult commitSha = Except.ok ()) :
    publish o content
      = ([ApiCall.getRef, ApiCall.createBlob content, ApiCall.createTree treePath blobSha tip,
          ApiCall.createCommit commitMessage treeSha [tip], ApiCall.updateRef commitSha],
         Except.ok ()) := by
  simp [publish, hg, hb, ht, hc, hu]

/-! ## Claim theorems -/

/-- C1: for every well-formed MonthlyIndex (unique keys at every level, as JS
objects guarantee), every Claim present in the input under a month (and token
variant, in the dual-schema variant) for a recipient address appears in the
output UserIndex at [address][month] (resp. [address][tokenVariant][month])
with the very same entry — amount and proof fields byte-identical. -/
theorem claim_C1 :
    (∀ (ms : Single.MerkleTreesByMonth), keysNodup ms →
      (∀ p ∈ ms, keysNodup p.2.claims) →
      ∀ d t u c, (d, t) ∈ ms → alookup t.claims u = some c →
        Single.claimAt (Single.merkleTreesByUser ms) u d = some c)
    ∧ (∀ (ms : Dual.MerkleTreesByMonth), keysNodup ms →
      (∀ p ∈ ms, keysNodup p.2) →
      (∀ p ∈ ms, ∀ q ∈ p.2, keysNodup q.2.recipients) →
      ∀ d bt tok t u r, (d, bt) ∈ ms → (tok, t) ∈ bt → alookup t.recipients u = some r →
        Dual.recipientAt (Dual.merkleTreesByUser ms) u tok d = some r) := by
  constructor
  · intro ms hn hc d t u c hmem hcl
    rw [Single.claimAt_merkleTreesByUser ms u d hn hc, alookup_of_mem_nodup hn hmem]
    simpa using hcl
  · intro ms hn hm hr d bt tok t u r hd htk hrc
    rw [Dual.recipientAt_merkleTreesByUser ms u tok d hn hm hr, alookup_of_mem_nodup hn hd]
    simp only [Option.some_bind]
    rw [alookup_of_mem_nodup (hm (d, bt) hd) htk]
    simpa using hrc

/-- Witness for C1: the spec's single-schema example, and a dual-schema month
holding both token-variant files. -/
theorem claim_C1_witness :
    Single.claimAt (Single.merkleTreesByUser [("2021-01", Single.sampleTree)]) "0xAAA" "2021-01"
        = some Single.sampleClaim
    ∧ Dual.recipientAt
        (Dual.merkleTreesByUser
          [("2021-01", [("veAUXO", Dual.sampleTree), ("xAUXO", Dual.sampleTree2)])])
        "0xBBB" "xAUXO" "2021-01" = some Dual.sampleRecipient2 :=
  ⟨claim_C1.1 [("2021-01", Single.sampleTree)] (by decide) (by decide)
      "2021-01" Single.sampleTree "0xAAA" Single.sampleClaim (by decide) (by decide),
   claim_C1.2 [("2021-01", [("veAUXO", Dual.sampleTree), ("xAUXO", Dual.sampleTree2)])]
      (by decide) (by decide) (by decide)
      "2021-01" [("veAUXO", Dual.sampleTree), ("xAUXO", Dual.sampleTree2)] "xAUXO"
      Dual.sampleTree2 "0xBBB" Dual.sampleRecipient2 (by decide) (by decide) (by decide)⟩

/-- C2: for both reshape engines, every output user key held some input claim;
an output month slot (resp. token-and-month slot) holds only the claim of that
same input month (and token) — so no claim occurrence is attributed to two
output month slots; and the total number of claims in the output equals the
total in the input. -/
theorem claim_C2 :
    (∀ (ms : Single.MerkleTreesByMonth), keysNodup ms →
      (∀ p ∈ ms, keysNodup p.2.claims) →
      (∀ u, u ∈ keys (Single.merkleTreesByUser ms) → ∃ p ∈ ms, u ∈ keys p.2.claims)
      ∧ (∀ u d c, Single.claimAt (Single.merkleTreesByUser ms) u d = some c →
          ∃ t, alookup ms d = some t ∧ alookup t.claims u = some c)
      ∧ Single.outputClaimCount (Single.merkleTreesByUser ms)
          = Single.inputClaimCount ms)
    ∧ (∀ (ms : Dual.MerkleTreesByMonth), keysNodup ms →
      (∀ p ∈ ms, keysNodup p.2) →
      (∀ p ∈ ms, ∀ q ∈ p.2, keysNodup q.2.recipients) →
      (∀ u, u ∈ keys (Dual.merkleTreesByUser ms) →
          ∃ p ∈ ms, ∃ q ∈ p.2, u ∈ keys q.2.recipients)
      ∧ (∀ u tok d r, Dual.recipientAt (Dual.merkleTreesByUser ms) u tok d = some r →
          ∃ bt, alookup ms d = some bt
            ∧ ∃ t, alookup bt tok = some t ∧ alookup t.recipients u = some r)
      ∧ Dual.outputRecipientCount (Dual.merkleTreesByUser ms)
          = Dual.inputRecipientCount ms) := by
  constructor
  · intro ms hn hc
    refine ⟨fun u h => Single.mem_keys_merkleTreesByUser ms u h, ?_,
      Single.count_merkleTreesByUser ms hn hc⟩
    intro u d c h
    rw [Single.claimAt_merkleTreesByUser ms u d hn hc] at h
    cases hx : alookup ms d with
    | none => rw [hx] at h; simp at h
    | some t =>
        rw [hx] at h
        simp only [Option.some_bind] at h
        exact ⟨t, rfl, h⟩
  · intro ms hn hm hr
    refine ⟨fun u h => Dual.mem_keys_merkleTreesByUserD ms u h, ?_,
      Dual.countD_merkleTreesByUser ms hn hm hr⟩
    intro u tok d r h
    rw [Dual.recipientAt_merkleTreesByUser ms u tok d hn hm hr] at h
    cases hx : alookup ms d with
    | none => rw [hx] at h; simp at h
    | some bt =>
        rw [hx] at h
        simp only [Option.some_bind] at h
        cases hy : alookup bt tok with
        | none => rw [hy] at h; simp at h
        | some t =>
            rw [hy] at h
            simp only [Option.some_bind] at h
            exact ⟨bt, rfl, t, hy, h⟩

/-- Witness for C2: the claim count is preserved on a concrete one-month input
of each variant (the dual month holding both token files). -/
theorem claim_C2_witness :
    Single.outputClaimCount (Single.merkleTreesByUser [("2021-01", Single.sampleTree)])
      = Single.inputClaimCount [("2021-01", Single.sampleTree)]
    ∧ Dual.outputRecipientCount (Dual.merkleTreesByUser
        [("2021-01", [("veAUXO", Dual.sampleTree), ("xAUXO", Dual.sampleTree2)])])
      = Dual.inputRecipientCount
        [("2021-01", [("veAUXO", Dual.sampleTree), ("xAUXO", Dual.sampleTree2)])] :=
  ⟨(claim_C2.1 [("2021-01", Single.sampleTree)] (by decide) (by decide)).2.2,
   (claim_C2.2 [("2021-01", [("veAUXO", Dual.sampleTree), ("xAUXO", Dual.sampleTree2)])]
      (by decide) (by decide) (by decide)).2.2⟩

/-- C3 (code bug in the dual-schema month-index builder): the source assigns
`merkleTreesByMonth[date]['veAUXO'] = merkleTree` (resp. `'xAUXO'`) without
ever initializing `merkleTreesByMonth[date]`, so reaching any recognized
token-variant file dereferences `undefined` and throws a TypeError instead of
placing the parsed RewardFile into the MonthlyIndex under the month and
token-variant keys.  Evaluated at one month directory holding a veAUXO file
whose text parses fine, the builder returns the TypeError. -/
theorem claim_C3_bug :
    Dual.merkleTreesByMonth (fun _ => Except.ok Dual.sampleTree)
        [{ name := "2021-01", type := "tree",
           object := { entries := some [{ name := "merkle-tree-veAUXO.json",
                                          object := { text := "ve" } }] } }]
      = Except.error
          (Thrown.errorObj "Cannot set properties of undefined (setting 'veAUXO')") := by
  rfl

/-- C4: whenever the run fails (either variant), the branch pointer is left at
its pre-run position — it moves only through a successful final update-ref —
and a run whose get-ref fails attempts no create-blob, create-tree or
create-commit call. -/
theorem claim_C4 :
    ∀ (parseS : String → Except Thrown Single.MerkleTree)
      (parseD : String → Except Thrown Dual.MerkleTree)
      (q : QueryResult) (o : GitOracle) (init : String),
      (∀ t, (Single.runTry parseS q o).2 = Except.error t →
          branchAfter o init (Single.runTry parseS q o).1 = init)
      ∧ (∀ t, (Dual.runTry parseD q o).2 = Except.error t →
          branchAfter o init (Dual.runTry parseD q o).1 = init)
      ∧ (∀ t, o.getRefResult = Except.error t →
          (∀ c ∈ (Single.runTry parseS q o).1, c = ApiCall.getRef)
          ∧ (∀ c ∈ (Dual.runTry parseD q o).1, c = ApiCall.getRef)) := by
  intro parseS parseD q o init
  refine ⟨?_, ?_, ?_⟩
  · intro t ht
    cases hb : Single.merkleTreesByMonth parseS q.repository.object.entries with
    | error t2 => simp [Single.runTry, hb, branchAfter]
    | ok monthly =>
        have he : Single.runTry parseS q o
            = publish o (Single.stringifyUserIndex (Single.merkleTreesByUser monthly)) := by
          simp [Single.runTry, hb]
        rw [he] at ht ⊢
        exact branchAfter_publish_error o _ init t ht
  · intro t ht
    cases hb : Dual.merkleTreesByMonth parseD q.repository.object.entries with
    | error t2 => simp [Dual.runTry, hb, branchAfter]
    | ok monthly =>
        have he : Dual.runTry parseD q o
            = publish o (Dual.stringifyUserIndex (Dual.merkleTreesByUser monthly)) := by
          simp [Dual.runTry, hb]
        rw [he] at ht ⊢
        exact branchAfter_publish_error o _ init t ht
  · intro t ht
    constructor
    · intro c hc
      cases hb : Single.merkleTreesByMonth parseS q.repository.object.entries with
      | error t2 => simp [Single.runTry, hb] at hc
      | ok monthly =>
          have he : Single.runTry parseS q o
              = publish o (Single.stringifyUserIndex (Single.merkleTreesByUser monthly)) := by
            simp [Single.runTry, hb]
          rw [he, publish_getRef_error o _ t ht] at hc
          simpa using hc
    · intro c hc
      cases hb : Dual.merkleTreesByMonth parseD q.repository.object.entries with
      | error t2 => simp [Dual.runTry, hb] at hc
      | ok monthly =>
          have he : Dual.runTry parseD q o
              = publish o (Dual.stringifyUserIndex (Dual.merkleTreesByUser monthly)) := by
            simp [Dual.runTry, hb]
          rw [he, publish_getRef_error o _ t ht] at hc
          simpa using hc

/-- Witness for C4: with a get-ref that fails, a concrete run leaves the
branch at its initial position. -/
theorem claim_C4_witness :
    branchAfter failingGetRefOracle "init0"
        (Single.runTry (fun _ => Except.ok Single.sampleTree)
          { repository := { object := { entries := [] } } } failingGetRefOracle).1
      = "init0" :=
  (claim_C4 (fun _ => Except.ok Single.sampleTree) (fun _ => Except.ok Dual.sampleTree)
      { repository := { object := { entries := [] } } } failingGetRefOracle "init0").1
    (Thrown.errorObj "Reference does not exist") (by rfl)

/-- C5 counterexample: the claim says a caught non-Error value still reports
the run's failure (just with no message); the handler as written reports
nothing at all for the thrown string "boom". -/
theorem claim_C5_counterexample : catchBlock (Thrown.other "boom") = [] := rfl

/-- C5 (amended): a caught `instanceof Error` value reports the failure with
that error's message; any other caught value is silently swallowed — no
failure is reported at all — and an erroring run's report is exactly the catch
block's output. -/
theorem claim_C5_amended :
    (∀ m, catchBlock (Thrown.errorObj m) = [CoreAction.setFailed m])
    ∧ (∀ v, catchBlock (Thrown.other v) = [])
    ∧ (∀ t, runReport (Except.error t) = catchBlock t)
    ∧ runReport (Except.ok ()) = [] :=
  ⟨fun _ => rfl, fun _ => rfl, fun _ => rfl, rfl⟩

/-- C6: both reshape engines are pure functions of the MonthlyIndex content:
two runs on the same input — even with the input's object keys enumerated in a
different insertion order — produce structurally equal UserIndex mappings. -/
theorem claim_C6 :
    (∀ (ms₁ ms₂ : Single.MerkleTreesByMonth), ms₁.Perm ms₂ → keysNodup ms₁ →
      (∀ p ∈ ms₁, keysNodup p.2.claims) →
      ∀ u d, Single.claimAt (Single.merkleTreesByUser ms₁) u d
        = Single.claimAt (Single.merkleTreesByUser ms₂) u d)
    ∧ (∀ (ms₁ ms₂ : Dual.MerkleTreesByMonth), ms₁.Perm ms₂ → keysNodup ms₁ →
      (∀ p ∈ ms₁, keysNodup p.2) →
      (∀ p ∈ ms₁, ∀ q ∈ p.2, keysNodup q.2.recipients) →
      ∀ u tok d, Dual.recipientAt (Dual.merkleTreesByUser ms₁) u tok d
        = Dual.recipientAt (Dual.merkleTreesByUser ms₂) u tok d) := by
  constructor
  · intro ms₁ ms₂ hp hn hc u d
    rw [Single.claimAt_merkleTreesByUser ms₁ u d hn hc,
        Single.claimAt_merkleTreesByUser ms₂ u d (keysNodup_perm hp hn)
          (fun p hpm => hc p (hp.mem_iff.mpr hpm)),
        alookup_perm hp hn d]
  · intro ms₁ ms₂ hp hn hm hr u tok d
    rw [Dual.recipientAt_merkleTreesByUser ms₁ u tok d hn hm hr,
        Dual.recipientAt_merkleTreesByUser ms₂ u tok d (keysNodup_perm hp hn)
          (fun p hpm => hm p (hp.mem_iff.mpr hpm))
          (fun p hpm => hr p (hp.mem_iff.mpr hpm)),
        alookup_perm hp hn d]

/-- Witness for C6: two enumeration orders of the same two-month index agree,
for each variant. -/
theorem claim_C6_witness :
    (Single.claimAt (Single.merkleTreesByUser
        [("2021-01", Single.sampleTree), ("2021-02", Single.sampleTree2)]) "0xAAA" "2021-02"
      = Single.claimAt (Single.merkleTreesByUser
        [("2021-02", Single.sampleTree2), ("2021-01", Single.sampleTree)]) "0xAAA" "2021-02")
    ∧ (Dual.recipientAt (Dual.merkleTreesByUser
          [("2021-01", [("veAUXO", Dual.sampleTree)]),
           ("2021-02", [("veAUXO", Dual.sampleTree2)])]) "0xBBB" "veAUXO" "2021-02"
      = Dual.recipientAt (Dual.merkleTreesByUser
          [("2021-02", [("veAUXO", Dual.sampleTree2)]),
           ("2021-01", [("veAUXO", Dual.sampleTree)])]) "0xBBB" "veAUXO" "2021-02") :=
  ⟨claim_C6.1 _ _ (List.Perm.swap _ _ _) (by decide) (by decide) "0xAAA" "2021-02",
   claim_C6.2 _ _ (List.Perm.swap _ _ _) (by decide) (by decide) (by decide)
     "0xBBB" "veAUXO" "2021-02"⟩

/-- C7: (single-schema variant) unrecognized file names contribute nothing —
the builder's result is unchanged when they are removed; a tree whose month
directories hold no recognized file builds the empty index without error; and
a month directory without a recognized file yields no entry in the
MonthlyIndex. -/
theorem claim_C7 :
    ∀ (parse : String → Except Thrown Single.MerkleTree) (entries : List TreeEntry),
      Single.merkleTreesByMonth parse entries
        = Single.merkleTreesByMonth parse (entries.map Single.dropUnrecognizedS)
      ∧ ((∀ e ∈ entries, ∃ els, e.object.entries = some els
            ∧ ∀ el ∈ els, Single.recognizedS el = false) →
          Single.merkleTreesByMonth parse entries = Except.ok [])
      ∧ (∀ m, Single.merkleTreesByMonth parse entries = Except.ok m →
          (entries.map TreeEntry.name).Nodup →
          ∀ e ∈ entries, ∀ els, e.object.entries = some els →
            (∀ el ∈ els, Single.recognizedS el = false) →
            alookup m e.name = none) := by
  intro parse entries
  refine ⟨Single.buildMonths_filter parse entries [], ?_, ?_⟩
  · intro h
    exact Single.buildMonths_no_recognized parse entries h []
  · intro m hok hnd e he els hels hall
    refine Single.alookup_buildMonths_none parse entries e.name ?_ [] m hok rfl
    intro e2 he2 hname els2 hels2 el hel
    have he2e : e2 = e := List.inj_on_of_nodup_map hnd he2 he hname
    subst he2e
    rw [hels] at hels2
    injection hels2 with h2
    subst h2
    exact hall el hel

/-- Witness for C7: a month directory holding only an unrecognized file yields
the empty index, with no error. -/
theorem claim_C7_witness :
    Single.merkleTreesByMonth (fun _ => Except.ok Single.sampleTree)
        [{ name := "2021-01", type := "tree",
           object := { entries := some [{ name := "README.md",
                                          object := { text := "hi" } }] } }]
      = Except.ok [] :=
  (claim_C7 (fun _ => Except.ok Single.sampleTree)
      [{ name := "2021-01", type := "tree",
         object := { entries := some [{ name := "README.md",
                                        object := { text := "hi" } }] } }]).2.1
    (by
      intro e he
      have he2 := List.mem_singleton.mp he
      subst he2
      exact ⟨[{ name := "README.md", object := { text := "hi" } }], rfl, by decide⟩)

/-- C8: with zero top-level entries, the reshape of either variant yields the
empty UserIndex, its serialization is the empty JSON object, and the publish
stage still runs all five steps, committing a blob holding that empty
object. -/
theorem claim_C8 :
    ∀ (parseS : String → Except Thrown Single.MerkleTree)
      (parseD : String → Except Thrown Dual.MerkleTree)
      (o : GitOracle) (tip blobSha treeSha commitSha : String),
      o.getRefResult = Except.ok tip →
      o.createBlobResult "\x7b\x7d" = Except.ok blobSha →
      o.createTreeResult treePath blobSha tip = Except.ok treeSha →
      o.createCommitResult commitMessage treeSha [tip] = Except.ok commitSha →
      o.updateRefResult commitSha = Except.ok () →
      Single.merkleTreesByUser [] = [] ∧ Single.stringifyUserIndex [] = "\x7b\x7d"
      ∧ Single.runTry parseS { repository := { object := { entries := [] } } } o
          = ([ApiCall.getRef, ApiCall.createBlob "\x7b\x7d",
              ApiCall.createTree treePath blobSha tip,
              ApiCall.createCommit commitMessage treeSha [tip],
              ApiCall.updateRef commitSha], Except.ok ())
      ∧ Dual.merkleTreesByUser [] = [] ∧ Dual.stringifyUserIndex [] = "\x7b\x7d"
      ∧ Dual.runTry parseD { repository := { object := { entries := [] } } } o
          = ([ApiCall.getRef, ApiCall.createBlob "\x7b\x7d",
              ApiCall.createTree treePath blobSha tip,
              ApiCall.createCommit commitMessage treeSha [tip],
              ApiCall.updateRef commitSha], Except.ok ()) := by
  intro parseS parseD o tip blobSha treeSha commitSha hg hb ht hc hu
  have h1 : Single.runTry parseS { repository := { object := { entries := [] } } } o
      = publish o "\x7b\x7d" := rfl
  have h2 : Dual.runTry parseD { repository := { object := { entries := [] } } } o
      = publish o "\x7b\x7d" := rfl
  refine ⟨rfl, rfl, ?_, rfl, rfl, ?_⟩
  · rw [h1]
    exact publish_all_ok o _ tip blobSha treeSha commitSha hg hb ht hc hu
  · rw [h2]
    exact publish_all_ok o _ tip blobSha treeSha commitSha hg hb ht hc hu

/-- Witness for C8: a concrete empty-tree run against an all-ok environment
performs the full five-call publish with the empty-object blob. -/
theorem claim_C8_witness :
    Single.runTry (fun _ => Except.ok Single.sampleTree)
        { repository := { object := { entries := [] } } } okOracle
      = ([ApiCall.getRef, ApiCall.createBlob "\x7b\x7d",
          ApiCall.createTree treePath "blob0" "tip0",
          ApiCall.createCommit commitMessage "tree0" ["tip0"],
          ApiCall.updateRef "commit0"], Except.ok ()) :=
  ((claim_C8 (fun _ => Except.ok Single.sampleTree) (fun _ => Except.ok Dual.sampleTree)
      okOracle "tip0" "blob0" "tree0" "commit0" rfl rfl rfl rfl rfl).2.2).1

/-- C9: the commit message is one fixed literal, independent of all run data,
and every successful run's created commit has exactly one parent — the tip
resolved in step 1. -/
theorem claim_C9 :
    commitMessage = "**GENERATED** Arrange Rewards by User"
    ∧ (∀ (parseS : String → Except Thrown Single.MerkleTree) (q : QueryResult) (o : GitOracle),
        (Single.runTry parseS q o).2 = Except.ok () →
        ∃ tip blobSha treeSha commitSha content,
          o.getRefResult = Except.ok tip
          ∧ (Single.runTry parseS q o).1
              = [ApiCall.getRef, ApiCall.createBlob content,
                 ApiCall.createTree treePath blobSha tip,
                 ApiCall.createCommit commitMessage treeSha [tip],
                 ApiCall.updateRef commitSha])
    ∧ (∀ (parseD : String → Except Thrown Dual.MerkleTree) (q : QueryResult) (o : GitOracle),
        (Dual.runTry parseD q o).2 = Except.ok () →
        ∃ tip blobSha treeSha commitSha content,
          o.getRefResult = Except.ok tip
          ∧ (Dual.runTry parseD q o).1
              = [ApiCall.getRef, ApiCall.createBlob content,
                 ApiCall.createTree treePath blobSha tip,
                 ApiCall.createCommit commitMessage treeSha [tip],
                 ApiCall.updateRef commitSha]) := by
  refine ⟨rfl, ?_, ?_⟩
  · intro parseS q o hok
    cases hb : Single.merkleTreesByMonth parseS q.repository.object.entries with
    | error t2 => simp [Single.runTry, hb] at hok
    | ok monthly =>
        have he : Single.runTry parseS q o
            = publish o (Single.stringifyUserIndex (Single.merkleTreesByUser monthly)) := by
          simp [Single.runTry, hb]
        rw [he] at hok ⊢
        obtain ⟨tip, blobSha, treeSha, commitSha, hg, _, _, _, _, htr⟩ :=
          publish_ok o _ () hok
        exact ⟨tip, blobSha, treeSha, commitSha, _, hg, htr⟩
  · intro parseD q o hok
    cases hb : Dual.merkleTreesByMonth parseD q.repository.object.entries with
    | error t2 => simp [Dual.runTry, hb] at hok
    | ok monthly =>
        have he : Dual.runTry parseD q o
            = publish o (Dual.stringifyUserIndex (Dual.merkleTreesByUser monthly)) := by
          simp [Dual.runTry, hb]
        rw [he] at hok ⊢
        obtain ⟨tip, blobSha, treeSha, commitSha, hg, _, _, _, _, htr⟩ :=
          publish_ok o _ () hok
        exact ⟨tip, blobSha, treeSha, commitSha, _, hg, htr⟩

/-- Witness for C9: a concrete successful run exhibits the fixed-message commit
with the single pre-run tip parent. -/
theorem claim_C9_witness :
    ∃ tip blobSha treeSha commitSha content,
      okOracle.getRefResult = Except.ok tip
      ∧ (Single.runTry (fun _ => Except.ok Single.sampleTree)
            { repository := { object := { entries := [] } } } okOracle).1
          = [ApiCall.getRef, ApiCall.createBlob content,
             ApiCall.createTree treePath blobSha tip,
             ApiCall.createCommit commitMessage treeSha [tip],
             ApiCall.updateRef commitSha] :=
  claim_C9.2.1 (fun _ => Except.ok Single.sampleTree)
    { repository := { object := { entries := [] } } } okOracle (by rfl)

/-- C10: a top-level entry that is not a subdirectory with a nested entries
list makes the month-index builder of either variant throw, and the run aborts
with no octokit call attempted, rather than skipping the entry. -/
theorem claim_C10 :
    ∀ (q : QueryResult) (e : TreeEntry), e ∈ q.repository.object.entries →
      e.object.entries = none →
      ∀ (parseS : String → Except Thrown Single.MerkleTree)
        (parseD : String → Except Thrown Dual.MerkleTree) (o : GitOracle),
        (∃ t, Single.merkleTreesByMonth parseS q.repository.object.entries = Except.error t)
        ∧ (∃ t, Dual.merkleTreesByMonth parseD q.repository.object.entries = Except.error t)
        ∧ (Single.runTry parseS q o).1 = []
        ∧ (∃ t, (Single.runTry parseS q o).2 = Except.error t)
        ∧ (Dual.runTry parseD q o).1 = []
        ∧ (∃ t, (Dual.runTry parseD q o).2 = Except.error t) := by
  intro q e he hn parseS parseD o
  obtain ⟨t1, ht1⟩ :=
    Single.buildMonths_error_of_none parseS q.repository.object.entries e he hn []
  obtain ⟨t2, ht2⟩ :=
    Dual.buildMonthsD_error_of_none parseD q.repository.object.entries e he hn []
  have hm1 : Single.merkleTreesByMonth parseS q.repository.object.entries
      = Except.error t1 := ht1
  have hm2 : Dual.merkleTreesByMonth parseD q.repository.object.entries
      = Except.error t2 := ht2
  refine ⟨⟨t1, hm1⟩, ⟨t2, hm2⟩, ?_, ⟨t1, ?_⟩, ?_, ⟨t2, ?_⟩⟩
  · simp [Single.runTry, hm1]
  · simp [Single.runTry, hm1]
  · simp [Dual.runTry, hm2]
  · simp [Dual.runTry, hm2]

/-- Witness for C10: a stray blob directly under the fixed root directory makes
the single-schema builder throw. -/
theorem claim_C10_witness :
    ∃ t, Single.merkleTreesByMonth (fun _ => Except.ok Single.sampleTree)
        [{ name := "stray.json", type := "blob", object := { entries := none } }]
      = Except.error t :=
  (claim_C10
      { repository := { object := { entries :=
          [{ name := "stray.json", type := "blob", object := { entries := none } }] } } }
      { name := "stray.json", type := "blob", object := { entries := none } }
      (List.mem_cons_self _ _) rfl
      (fun _ => Except.ok Single.sampleTree) (fun _ => Except.ok Dual.sampleTree)
      okOracle).1

end TsReporter
